import Mathlib

/-!
Verification development for the GL upload negotiator in
`gst-libs/gst/gl/gstglupload.c`.

The file shallowly embeds the upload session: the caps (format descriptor)
values handled by the negotiation code, the four upload strategies
(`GLMemory`, `EGLImage`, `UploadMeta`, `Raw Data`), the per-session state
(`GstGLUploadPrivate`), and the public entry points
(`gst_gl_upload_new`, `gst_gl_upload_set_caps`,
`gst_gl_upload_transform_caps`, `gst_gl_upload_perform_with_buffer`).

External collaborators (the caps algebra from GStreamer core, video-info
extraction, frame mapping, GL context sharing) are modelled as explicit
data or function parameters, following their documented contracts:
a caps value is a list of structures, each structure a media type, a
field map (assoc list with distinct keys in well-formed values) and a
caps-feature set; `gst_caps_merge` appends structures of the second caps
not already expressed (structure-subset) by the accumulated caps;
`gst_caps_intersect_full` with `GST_CAPS_INTERSECT_FIRST` intersects
pairwise in first-caps-major order, merging each result the same way.
Machine integers do not overflow in any modelled path, so `Nat`/`Int`
are used directly.
-/

/-! ### Caps model (external format-descriptor algebra) -/

/-- Caps features appearing in `gstglupload.c`. -/
inductive Feature
  | glMemory
  | eglImage
  | uploadMeta
  | sysMemory
  deriving DecidableEq, Repr

/-- One caps structure: media type, fixed-valued fields (assoc list keyed by
field id; key 0 = "format", key 1 = "texture-target"), and its feature set. -/
structure CapsStruct where
  media : Nat
  fields : List (Nat × Nat)
  features : List Feature
  deriving DecidableEq, Repr

/-- A caps value is an ordered list of structures. -/
abbrev Caps := List CapsStruct

/-- Field id for the "format" field. -/
def fFormat : Nat := 0

/-- Field id for the "texture-target" field. -/
def fTexTarget : Nat := 1

/-- Field value for the "RGBA" pixel format. -/
def vRGBA : Nat := 1

/-- Feature-set inclusion (`gst_caps_features_contains` lifted to subsets). -/
def featSub (a b : List Feature) : Bool := a.all fun f => b.contains f

/-- Feature-set equality (`gst_caps_features_is_equal`). -/
def featEq (a b : List Feature) : Bool := featSub a b && featSub b a

/-- `gst_caps_features_contains`. -/
def featuresContain (fs : List Feature) (f : Feature) : Bool := fs.contains f

/-- Every field of `b` is present in `a` with the same value. -/
def fieldsSubsume (a b : List (Nat × Nat)) : Bool :=
  b.all fun kv => a.lookup kv.1 == some kv.2

/-- Structure subset: `s` is expressed by (at least as constrained as) `t`. -/
def structSubset (s t : CapsStruct) : Bool :=
  s.media == t.media && featEq s.features t.features &&
    fieldsSubsume s.fields t.fields

/-- Field maps have no conflicting values. -/
def fieldsCompat (a b : List (Nat × Nat)) : Bool :=
  b.all fun kv =>
    match a.lookup kv.1 with
    | none => true
    | some v => v == kv.2

/-- Structure intersection: same media type, equal features, compatible
fields; the result carries the union of the field constraints. -/
def structIntersect (s t : CapsStruct) : Option CapsStruct :=
  if s.media == t.media && featEq s.features t.features &&
      fieldsCompat s.fields t.fields then
    some ⟨s.media, s.fields ++ t.fields.filter (fun kv => (s.fields.lookup kv.1).isNone),
      s.features⟩
  else none

/-- `gst_caps_merge_structure`: append `s` unless already expressed. -/
def capsMergeStructure (acc : Caps) (s : CapsStruct) : Caps :=
  if acc.any fun t => structSubset s t then acc else acc ++ [s]

/-- Merge a list of structures into an accumulated caps. -/
def mergeInto (acc : Caps) (l : List CapsStruct) : Caps :=
  l.foldl capsMergeStructure acc

/-- `gst_caps_merge`. -/
def gst_caps_merge (a b : Caps) : Caps := mergeInto a b

/-- Caps subset: every structure expressed by some structure of the other. -/
def capsSubset (a b : Caps) : Bool := a.all fun s => b.any fun t => structSubset s t

/-- `gst_caps_is_equal`: mutual subset. -/
def gst_caps_is_equal (a b : Caps) : Bool := capsSubset a b && capsSubset b a

/-- `gst_caps_is_fixed`: a single structure with only fixed field values
(field values are always fixed in this model). -/
def gst_caps_is_fixed (c : Caps) : Bool := c.length == 1

/-- `gst_caps_intersect_full` with `GST_CAPS_INTERSECT_FIRST`: pairwise
intersections in first-caps-major order, merged with subset deduplication. -/
def gst_caps_intersect_first (a b : Caps) : Caps :=
  a.foldl (fun acc s => mergeInto acc (b.filterMap fun t => structIntersect s t)) []

/-- `_set_caps_features`: copy the caps, replacing every structure's
features with the single given feature. -/
def _set_caps_features (c : Caps) (f : Feature) : Caps :=
  c.map fun s => ⟨s.media, s.fields, [f]⟩

/-- `gst_caps_set_simple`: set a field on every structure. -/
def capsSetFieldAll (c : Caps) (k v : Nat) : Caps :=
  c.map fun s => ⟨s.media, (k, v) :: s.fields.filter (fun kv => kv.1 ≠ k), s.features⟩

/-- `gst_structure_remove_fields` over all structures. -/
def capsRemoveFieldAll (c : Caps) (k : Nat) : Caps :=
  c.map fun s => ⟨s.media, s.fields.filter (fun kv => kv.1 ≠ k), s.features⟩

/-- Modelled from the spec: `gst_gl_overlay_compositor_add_caps` lives in
`gstgloverlaycompositor.c`, which is not part of the analysed source file;
the spec's NegotiationEngine `transformCaps` describes only the merge of the
per-strategy results and the intersection with the optional filter, so the
overlay-compositor step is modelled as the identity on caps. -/
def gst_gl_overlay_compositor_add_caps (c : Caps) : Caps := c

/-! ### Per-strategy transform-caps (from the source) -/

/-- `GstPadDirection`. -/
inductive PadDirection
  | sink
  | src
  deriving DecidableEq, Repr

/-- `_gl_memory_upload_transform_caps`: both directions map to GLMemory
features. -/
def _gl_memory_upload_transform_caps (_d : PadDirection) (c : Caps) : Caps :=
  _set_caps_features c Feature.glMemory

/-- `_egl_image_upload_transform_caps`. -/
def _egl_image_upload_transform_caps (d : PadDirection) (c : Caps) : Caps :=
  match d with
  | PadDirection.sink => _set_caps_features c Feature.glMemory
  | PadDirection.src =>
      capsRemoveFieldAll
        (capsSetFieldAll (_set_caps_features c Feature.eglImage) fFormat vRGBA)
        fTexTarget

/-- `_upload_meta_upload_transform_caps`. -/
def _upload_meta_upload_transform_caps (d : PadDirection) (c : Caps) : Caps :=
  match d with
  | PadDirection.sink => _set_caps_features c Feature.glMemory
  | PadDirection.src =>
      capsRemoveFieldAll
        (capsSetFieldAll (_set_caps_features c Feature.uploadMeta) fFormat vRGBA)
        fTexTarget

/-- `_raw_data_upload_transform_caps`. -/
def _raw_data_upload_transform_caps (d : PadDirection) (c : Caps) : Caps :=
  match d with
  | PadDirection.sink => _set_caps_features c Feature.glMemory
  | PadDirection.src =>
      capsRemoveFieldAll (_set_caps_features c Feature.sysMemory) fTexTarget

/-- The `transform_caps` entry of `upload_methods[i]` (catalog order:
GLMemory, EGLImage, UploadMeta, Raw Data). -/
def methodTransformCaps (i : Nat) (d : PadDirection) (c : Caps) : Caps :=
  match i with
  | 0 => _gl_memory_upload_transform_caps d c
  | 1 => _egl_image_upload_transform_caps d c
  | 2 => _upload_meta_upload_transform_caps d c
  | _ => _raw_data_upload_transform_caps d c

/-- `gst_gl_upload_transform_caps`: merge every strategy's transform of the
caps, add overlay-composition caps, then intersect with the filter. -/
def gst_gl_upload_transform_caps (d : PadDirection) (caps : Caps)
    (filter : Option Caps) : Caps :=
  let tmp := (List.range 4).foldl
    (fun acc i => gst_caps_merge acc (methodTransformCaps i d caps)) []
  let tmp := gst_gl_overlay_compositor_add_caps tmp
  match filter with
  | some f => gst_caps_intersect_first f tmp
  | none => tmp

/-! ### Frames, video info and the four strategies' accept/perform -/

/-- `GstVideoInfo` as used by the upload code: plane count, view count,
multiview mode. Produced by the external `gst_video_info_from_caps`. -/
structure VideoInfo where
  nPlanes : Nat
  views : Nat
  multiviewSeparated : Bool
  deriving DecidableEq, Repr

/-- Origin of one memory region of a frame. -/
inductive MemKind
  | glMem (ctx : Nat)
  | eglMem
  | sysMem
  deriving DecidableEq, Repr

/-- A frame (`GstBuffer`): object identity, memory regions, metadata
envelope (flags/timestamps), upload-meta fields, and the outcome of the
external frame-mapping and consumer-upload collaborators. -/
structure Buffer where
  oid : Nat
  mems : List MemKind
  flags : Nat
  pts : Nat
  dts : Nat
  hasUploadMeta : Bool
  metaRGBA : Bool
  metaOrientNormal : Bool
  metaUploadOk : Bool
  mappable : Bool
  mappedInfo : VideoInfo
  deriving DecidableEq, Repr

/-- Expected memory count: planes, times views in separated multiview mode. -/
def expectedMemories (i : VideoInfo) : Nat :=
  if i.multiviewSeparated then i.nPlanes * i.views else i.nPlanes

/-- `gst_is_gl_memory`. -/
def isGLMemory : MemKind → Bool
  | MemKind.glMem _ => true
  | _ => false

/-- `gst_is_egl_image_memory`. -/
def isEGLImageMemory : MemKind → Bool
  | MemKind.eglMem => true
  | _ => false

/-- Features of the first structure (`gst_caps_get_features (caps, 0)`). -/
def capsFeatures0 (c : Caps) : List Feature :=
  match c with
  | [] => []
  | s :: _ => s.features

/-- `_gl_memory_upload_accept` (called with a non-NULL buffer). -/
def _gl_memory_upload_accept (inCaps outCaps : Caps) (info : VideoInfo)
    (b : Buffer) : Bool :=
  if !(featuresContain (capsFeatures0 outCaps) Feature.glMemory) then false
  else if !(featuresContain (capsFeatures0 inCaps) Feature.glMemory
      || featuresContain (capsFeatures0 inCaps) Feature.sysMemory) then false
  else if b.mems.length != expectedMemories info then false
  else b.mems.all isGLMemory

/-- `_egl_image_upload_accept` (called with a non-NULL buffer). -/
def _egl_image_upload_accept (inCaps outCaps : Caps) (info : VideoInfo)
    (b : Buffer) : Bool :=
  if !(featuresContain (capsFeatures0 inCaps) Feature.eglImage) then false
  else if !(featuresContain (capsFeatures0 outCaps) Feature.glMemory) then false
  else if b.mems.length != expectedMemories info then false
  else b.mems.all isEGLImageMemory

/-- `_upload_meta_upload_accept` (called with a non-NULL buffer); note that
it performs no memory-count check. -/
def _upload_meta_upload_accept (inCaps outCaps : Caps) (b : Buffer) : Bool :=
  if !(featuresContain (capsFeatures0 inCaps) Feature.uploadMeta) then false
  else if !(featuresContain (capsFeatures0 outCaps) Feature.glMemory) then false
  else if !b.hasUploadMeta then false
  else if !b.metaRGBA then false
  else if !b.metaOrientNormal then false
  else true

/-- `_raw_data_upload_accept`: output caps must carry GLMemory, then the
frame is mapped (`_raw_upload_frame_new`); acceptance is map success. -/
def _raw_data_upload_accept (outCaps : Caps) (b : Buffer) : Bool :=
  featuresContain (capsFeatures0 outCaps) Feature.glMemory && b.mappable

/-- A fresh GL-texture-backed output buffer (`gst_buffer_new` followed by
texture setup): a distinct object with default (zero) metadata. -/
def freshGLBuffer (ctx : Nat) (b : Buffer) (info : VideoInfo) (n : Nat) : Buffer :=
  ⟨b.oid + 1, List.replicate n (MemKind.glMem ctx), 0, 0, 0,
    false, false, false, false, false, info⟩

/-- `_gl_memory_upload_perform`: returns `GST_GL_UPLOAD_UNSHARED_GL_CONTEXT`
(-3) when some memory's owning context cannot share with the session
context, else transfers and returns the same buffer with `GST_GL_UPLOAD_DONE`
(1). Only GL memories occur here (guaranteed by accept). -/
def _gl_memory_upload_perform (canShare : Nat → Nat → Bool) (ctx : Nat)
    (b : Buffer) : Int × Option Buffer :=
  if b.mems.all (fun m =>
      match m with
      | MemKind.glMem c => canShare ctx c
      | _ => true) then
    (1, some b)
  else (-3, none)

/-- `_egl_image_upload_perform`: builds a fresh output buffer from the
output info on the GL thread; `gst_buffer_new` cannot fail, so the result
is always `GST_GL_UPLOAD_DONE` (1). -/
def _egl_image_upload_perform (ctx : Nat) (outInfo : VideoInfo)
    (b : Buffer) : Int × Option Buffer :=
  (1, some (freshGLBuffer ctx b outInfo outInfo.nPlanes))

/-- `_upload_meta_upload_perform`: builds a fresh output buffer from the
input info, then invokes the consumer-provided upload callback; failure is
`GST_GL_UPLOAD_ERROR` (-1). -/
def _upload_meta_upload_perform (ctx : Nat) (inInfo : VideoInfo)
    (b : Buffer) : Int × Option Buffer :=
  (if b.metaUploadOk then 1 else -1,
    some (freshGLBuffer ctx b inInfo inInfo.nPlanes))

/-- `_raw_data_upload_perform`: wraps the mapped planes as GL memories in a
fresh buffer; always `GST_GL_UPLOAD_DONE` (1). -/
def _raw_data_upload_perform (ctx : Nat) (inInfo : VideoInfo)
    (b : Buffer) : Int × Option Buffer :=
  (1, some (freshGLBuffer ctx b inInfo (expectedMemories inInfo)))

/-! ### The upload session (`GstGLUpload` / `GstGLUploadPrivate`) -/

/-- Session state: GL context id, negotiated caps and infos, the current
method (catalog index of `priv->method`), the current instance
(`priv->method_impl`, an instance id), the next-candidate index
(`priv->method_i`), the set of live strategy instances (id, catalog index)
including the per-method array built by `gst_gl_upload_new`
(`priv->upload_impl`), and a fresh-id counter. -/
structure UState where
  ctx : Nat
  inCaps : Option Caps
  outCaps : Option Caps
  inInfo : VideoInfo
  outInfo : VideoInfo
  method : Option Nat
  methodImpl : Option Nat
  method_i : Nat
  live : List (Nat × Nat)
  nextId : Nat
  deriving DecidableEq, Repr

/-- Zero-initialised `GstVideoInfo`. -/
def defaultInfo : VideoInfo := ⟨0, 0, false⟩

/-- The instances created for `priv->upload_impl` by `gst_gl_upload_new`,
one per catalog entry, with ids 0..3. -/
def baseLive : List (Nat × Nat) := [(0, 0), (1, 1), (2, 2), (3, 3)]

/-- `gst_gl_upload_new`: zeroed private state plus one instance per
catalog strategy in `upload_impl`. -/
def gst_gl_upload_new (ctx : Nat) : UState :=
  ⟨ctx, none, none, defaultInfo, defaultInfo, none, none, 0, baseLive, 4⟩

/-- Free the current `method_impl` (removing it from the live set). -/
def freeImpl (s : UState) : UState :=
  match s.methodImpl with
  | some iid => { s with live := s.live.filter fun p => p.1 ≠ iid, methodImpl := none }
  | none => s

/-- `_upload_find_method`: fails (without freeing anything) when the
catalog is exhausted; otherwise frees the current instance, selects the
strategy at `method_i`, creates a fresh instance for it, and advances
`method_i`. -/
def _upload_find_method (s : UState) : UState × Bool :=
  if 4 ≤ s.method_i then (s, false)
  else
    let s1 := freeImpl s
    ({ s1 with
        method := some s.method_i
        methodImpl := some s1.nextId
        live := s1.live ++ [(s1.nextId, s.method_i)]
        nextId := s1.nextId + 1
        method_i := s.method_i + 1 }, true)

/-- The `GST_GL_UPLOAD_UNSHARED_GL_CONTEXT` branch of
`gst_gl_upload_perform_with_buffer`: free the current instance,
force-select the Raw Data strategy (catalog index 3), and create a fresh
instance for it; `method_i` is not touched. -/
def forceRawMethod (s : UState) : UState :=
  let s1 := freeImpl s
  { s1 with
      method := some 3
      methodImpl := some s1.nextId
      live := s1.live ++ [(s1.nextId, 3)]
      nextId := s1.nextId + 1 }

/-- The no-op test of `_gst_gl_upload_set_caps_unlocked`: both stored caps
exist and equal the new pair. -/
def capsUnchanged (s : UState) (inCaps outCaps : Caps) : Bool :=
  match s.inCaps, s.outCaps with
  | some ic, some oc =>
      gst_caps_is_equal ic inCaps && gst_caps_is_equal oc outCaps
  | _, _ => false

/-- `_gst_gl_upload_set_caps_unlocked`. `FALSE` when the input caps are not
fixed; no-op when both caps pairs are equal to the stored ones; otherwise
store the caps, re-derive the infos via the external
`gst_video_info_from_caps` (the `infoOf` parameter), free the current
instance and reset `method_i`. -/
def _gst_gl_upload_set_caps_unlocked (infoOf : Caps → VideoInfo) (s : UState)
    (inCaps outCaps : Caps) : UState × Bool :=
  if !(gst_caps_is_fixed inCaps) then (s, false)
  else if capsUnchanged s inCaps outCaps then (s, true)
  else
    let s1 := freeImpl s
    ({ s1 with
        inCaps := some inCaps
        outCaps := some outCaps
        inInfo := infoOf inCaps
        outInfo := infoOf outCaps
        method_i := 0 }, true)

/-- `gst_gl_upload_set_caps` (the lock only serialises sessions). -/
def gst_gl_upload_set_caps (infoOf : Caps → VideoInfo) (s : UState)
    (inCaps outCaps : Caps) : UState × Bool :=
  _gst_gl_upload_set_caps_unlocked infoOf s inCaps outCaps

/-- Observable events of one `gst_gl_upload_perform_with_buffer` call. -/
inductive Event
  | tryAccept (m : Nat) (ok : Bool)
  | didPerform (m : Nat) (r : Int)
  deriving DecidableEq, Repr

/-- Return values of the upload call: `ret v` is the C return value
(`GST_GL_UPLOAD_DONE` = 1, `GST_GL_UPLOAD_ERROR` = -1,
`GST_GL_UPLOAD_UNSHARED_GL_CONTEXT` = -3, and the literal `FALSE` = 0
returned on catalog exhaustion); `ub` marks the undefined-behaviour paths
(NULL method or NULL instance dereference, or un-negotiated caps); `outOfFuel`
is the artificial fuel bound of the embedding, never reached from well-formed
states. -/
inductive URet
  | ret (v : Int)
  | ub
  | outOfFuel
  deriving DecidableEq, Repr

/-- Dispatch of `method->accept`. The Raw Data accept re-maps the frame and,
on success, overwrites `priv->in_info` with the mapped frame's info. -/
def acceptOf (m : Nat) (s : UState) (ic oc : Caps) (b : Buffer) :
    Bool × UState :=
  match m with
  | 0 => (_gl_memory_upload_accept ic oc s.inInfo b, s)
  | 1 => (_egl_image_upload_accept ic oc s.inInfo b, s)
  | 2 => (_upload_meta_upload_accept ic oc b, s)
  | _ =>
      let ok := _raw_data_upload_accept oc b
      (ok, if ok then { s with inInfo := b.mappedInfo } else s)

/-- Dispatch of `method->perform`. -/
def performOf (canShare : Nat → Nat → Bool) (m : Nat) (s : UState)
    (b : Buffer) : Int × Option Buffer :=
  match m with
  | 0 => _gl_memory_upload_perform canShare s.ctx b
  | 1 => _egl_image_upload_perform s.ctx s.outInfo b
  | 2 => _upload_meta_upload_perform s.ctx s.inInfo b
  | _ => _raw_data_upload_perform s.ctx s.inInfo b

/-- The `restart:` loop of `gst_gl_upload_perform_with_buffer`: accept, then
perform; `UNSHARED_GL_CONTEXT` forces the Raw Data strategy and restarts;
`DONE` returns; any other perform result frees the instance and advances
(`NEXT_METHOD`); a rejected accept advances without freeing first (the free
happens inside `_upload_find_method`, so exhaustion by rejection keeps the
last instance alive). -/
def uploadLoop (canShare : Nat → Nat → Bool) (ic oc : Caps) (b : Buffer) :
    Nat → UState → UState × URet × List Event × Option Buffer
  | 0, s => (s, URet.outOfFuel, [], none)
  | fuel + 1, s =>
    match s.method, s.methodImpl with
    | some m, some _ =>
      let a := acceptOf m s ic oc b
      if a.1 then
        let p := performOf canShare m a.2 b
        if p.1 == -3 then
          let s2 := forceRawMethod a.2
          let t := uploadLoop canShare ic oc b fuel s2
          (t.1, t.2.1, Event.tryAccept m true :: Event.didPerform m p.1 :: t.2.2.1,
            t.2.2.2)
        else if p.1 == 1 then
          (a.2, URet.ret p.1, [Event.tryAccept m true, Event.didPerform m p.1], p.2)
        else
          let s2 := freeImpl a.2
          let f := _upload_find_method s2
          if f.2 then
            let t := uploadLoop canShare ic oc b fuel f.1
            (t.1, t.2.1,
              Event.tryAccept m true :: Event.didPerform m p.1 :: t.2.2.1, t.2.2.2)
          else
            (f.1, URet.ret 0,
              [Event.tryAccept m true, Event.didPerform m p.1], none)
      else
        let f := _upload_find_method a.2
        if f.2 then
          let t := uploadLoop canShare ic oc b fuel f.1
          (t.1, t.2.1, Event.tryAccept m false :: t.2.2.1, t.2.2.2)
        else (f.1, URet.ret 0, [Event.tryAccept m false], none)
    | _, _ => (s, URet.ub, [], none)

/-- `gst_buffer_copy_into` with `GST_BUFFER_COPY_FLAGS |
GST_BUFFER_COPY_TIMESTAMPS`: copies the metadata envelope only. -/
def gst_buffer_copy_into (dst src : Buffer) : Buffer :=
  { dst with flags := src.flags, pts := src.pts, dts := src.dts }

/-- `gst_gl_upload_perform_with_buffer`: if no current instance exists, run
`_upload_find_method` (its result is ignored); run the accept/perform loop;
on `DONE`, copy the metadata envelope onto the output unless it is the very
same buffer object, and hand the output out. -/
def gst_gl_upload_perform_with_buffer (canShare : Nat → Nat → Bool)
    (s : UState) (b : Buffer) : UState × URet × List Event × Option Buffer :=
  match s.inCaps, s.outCaps with
  | some ic, some oc =>
    let s1 := if s.methodImpl.isNone then (_upload_find_method s).1 else s
    let t := uploadLoop canShare ic oc b 16 s1
    match t.2.1, t.2.2.2 with
    | URet.ret v, some pre =>
        if v == 1 then
          let out := if pre.oid ≠ b.oid then gst_buffer_copy_into pre b else pre
          (t.1, URet.ret v, t.2.2.1, some out)
        else (t.1, t.2.1, t.2.2.1, t.2.2.2)
    | _, _ => (t.1, t.2.1, t.2.2.1, t.2.2.2)
  | _, _ => (s, URet.ub, [], none)

/-- State component of an upload-call result. -/
def puState (x : UState × URet × List Event × Option Buffer) : UState := x.1

/-- Return value of an upload-call result. -/
def puRet (x : UState × URet × List Event × Option Buffer) : URet := x.2.1

/-- Event trace of an upload-call result. -/
def puEvents (x : UState × URet × List Event × Option Buffer) : List Event :=
  x.2.2.1

/-- Output buffer of an upload-call result. -/
def puOut (x : UState × URet × List Event × Option Buffer) : Option Buffer :=
  x.2.2.2

/-- Number of `accept` invocations in a trace. -/
def countAccepts (evs : List Event) : Nat :=
  evs.countP fun e =>
    match e with
    | Event.tryAccept _ _ => true
    | _ => false

/-- Number of `accept` invocations on catalog entry `m` in a trace. -/
def countAcceptsAt (m : Nat) (evs : List Event) : Nat :=
  evs.countP fun e =>
    match e with
    | Event.tryAccept mm _ => mm == m
    | _ => false

/-! ### Concrete fixtures for witnesses and counterexamples -/

/-- Caps with the GLMemory feature. -/
def capGL : Caps := [⟨0, [], [Feature.glMemory]⟩]

/-- System-memory caps with a fixed format field. -/
def capSys : Caps := [⟨0, [(0, 10)], [Feature.sysMemory]⟩]

/-- Caps with the upload-meta feature. -/
def capMeta : Caps := [⟨0, [], [Feature.uploadMeta]⟩]

/-- A two-plane, single-view, non-separated video info. -/
def infoW : VideoInfo := ⟨2, 1, false⟩

/-- A concrete `gst_video_info_from_caps` collaborator. -/
def infoFnW : Caps → VideoInfo := fun _ => infoW

/-- A GL context-sharing collaborator that always shares. -/
def canShareT : Nat → Nat → Bool := fun _ _ => true

/-- A GL context-sharing collaborator that never shares. -/
def canShareF : Nat → Nat → Bool := fun _ _ => false

/-- A fresh session for context 0. -/
def sNew : UState := gst_gl_upload_new 0

/-- Session negotiated system-memory to GL-memory. -/
def sSys : UState := (gst_gl_upload_set_caps infoFnW sNew capSys capGL).1

/-- Session negotiated GL-memory to GL-memory. -/
def sGLGL : UState := (gst_gl_upload_set_caps infoFnW sNew capGL capGL).1

/-- Session negotiated upload-meta to GL-memory. -/
def sMeta : UState := (gst_gl_upload_set_caps infoFnW sNew capMeta capGL).1

/-- A system-memory frame with the right memory count that cannot be
mapped. -/
def bufSysNoMap : Buffer :=
  ⟨100, [MemKind.sysMem, MemKind.sysMem], 7, 8, 9, false, false, false, false,
    false, infoW⟩

/-- A system-memory frame with the right memory count that maps fine. -/
def bufSysMap : Buffer :=
  ⟨200, [MemKind.sysMem, MemKind.sysMem], 7, 8, 9, false, false, false, false,
    true, infoW⟩

/-- A GL-memory frame owned by foreign context 9, unmappable. -/
def bufGLForeign : Buffer :=
  ⟨300, [MemKind.glMem 9, MemKind.glMem 9], 7, 8, 9, false, false, false,
    false, false, infoW⟩

/-- A system-memory frame with only one memory region (mismatched count)
that maps fine. -/
def bufMismatch : Buffer :=
  ⟨400, [MemKind.sysMem], 7, 8, 9, false, false, false, false, true, infoW⟩

/-- A frame carrying an upload meta whose consumer callback fails, with no
other usable representation. -/
def bufMetaFail : Buffer :=
  ⟨500, [MemKind.sysMem], 7, 8, 9, true, true, true, false, false, infoW⟩

/-- A GL-memory frame owned by the session context itself. -/
def bufGLOwn : Buffer :=
  ⟨600, [MemKind.glMem 0, MemKind.glMem 0], 7, 8, 9, false, false, false,
    false, false, infoW⟩

/-! ### Helper lemmas about the fallback loop -/

theorem uploadLoop_ret_val (canShare : Nat → Nat → Bool) (ic oc : Caps)
    (b : Buffer) : ∀ fuel s v,
    puRet (uploadLoop canShare ic oc b fuel s) = URet.ret v → v = 0 ∨ v = 1 := by
  intro fuel
  induction fuel with
  | zero => intro s v h; simp [uploadLoop, puRet] at h
  | succ n ih =>
    intro s v h
    rcases hm : s.method with _ | m
    · rw [uploadLoop, hm] at h
      simp [puRet] at h
    · rcases hi : s.methodImpl with _ | impl
      · rw [uploadLoop, hm, hi] at h
        simp [puRet] at h
      · rw [uploadLoop, hm, hi] at h
        simp only [puRet] at h
        split at h
        · split at h
          · exact ih _ _ h
          · split at h
            · rename_i hp1
              simp only [Prod.mk.injEq] at h
              simp at hp1
              injection h with h2
              right
              omega
            · split at h
              · exact ih _ _ h
              · simp only [Prod.mk.injEq] at h
                injection h with h2
                left
                omega
        · split at h
          · exact ih _ _ h
          · simp only [Prod.mk.injEq] at h
            injection h with h2
            left
            omega

theorem freeImpl_shape (s : UState) :
    (freeImpl s).method_i = s.method_i ∧ (freeImpl s).method = s.method ∧
      (freeImpl s).nextId = s.nextId ∧ (freeImpl s).ctx = s.ctx ∧
      (freeImpl s).inInfo = s.inInfo ∧ (freeImpl s).outInfo = s.outInfo ∧
      (freeImpl s).methodImpl = none ∨ freeImpl s = s := by
  rcases h : s.methodImpl with _ | iid
  · right; simp [freeImpl, h]
  · left; simp [freeImpl, h]

theorem freeImpl_method_i (s : UState) : (freeImpl s).method_i = s.method_i := by
  rcases h : s.methodImpl with _ | iid <;> simp [freeImpl, h]

theorem freeImpl_method (s : UState) : (freeImpl s).method = s.method := by
  rcases h : s.methodImpl with _ | iid <;> simp [freeImpl, h]

theorem acceptOf_preserves (m : Nat) (s : UState) (ic oc : Caps) (b : Buffer) :
    ((acceptOf m s ic oc b).2).method = s.method ∧
      ((acceptOf m s ic oc b).2).methodImpl = s.methodImpl ∧
      ((acceptOf m s ic oc b).2).method_i = s.method_i ∧
      ((acceptOf m s ic oc b).2).live = s.live ∧
      ((acceptOf m s ic oc b).2).nextId = s.nextId ∧
      ((acceptOf m s ic oc b).2).ctx = s.ctx := by
  rcases m with _ | _ | _ | m
  · simp [acceptOf]
  · simp [acceptOf]
  · simp [acceptOf]
  · simp only [acceptOf]
    split <;> simp

theorem find_method_method_i_le (s : UState) :
    s.method_i ≤ ((_upload_find_method s).1).method_i := by
  by_cases h : 4 ≤ s.method_i
  · simp [_upload_find_method, h]
  · simp [_upload_find_method, h, freeImpl_method_i]

theorem forceRawMethod_method_i (s : UState) :
    (forceRawMethod s).method_i = s.method_i := by
  simp [forceRawMethod, freeImpl_method_i]

theorem uploadLoop_succ_eq (canShare : Nat → Nat → Bool) (ic oc : Caps)
    (b : Buffer) (n : Nat) (s : UState) (m impl : Nat)
    (hm : s.method = some m) (hi : s.methodImpl = some impl) :
    uploadLoop canShare ic oc b (n + 1) s =
      if (acceptOf m s ic oc b).1 then
        if (performOf canShare m (acceptOf m s ic oc b).2 b).1 == -3 then
          ((uploadLoop canShare ic oc b n (forceRawMethod (acceptOf m s ic oc b).2)).1,
            (uploadLoop canShare ic oc b n (forceRawMethod (acceptOf m s ic oc b).2)).2.1,
            Event.tryAccept m true ::
              Event.didPerform m (performOf canShare m (acceptOf m s ic oc b).2 b).1 ::
              (uploadLoop canShare ic oc b n (forceRawMethod (acceptOf m s ic oc b).2)).2.2.1,
            (uploadLoop canShare ic oc b n (forceRawMethod (acceptOf m s ic oc b).2)).2.2.2)
        else if (performOf canShare m (acceptOf m s ic oc b).2 b).1 == 1 then
          ((acceptOf m s ic oc b).2,
            URet.ret (performOf canShare m (acceptOf m s ic oc b).2 b).1,
            [Event.tryAccept m true,
              Event.didPerform m (performOf canShare m (acceptOf m s ic oc b).2 b).1],
            (performOf canShare m (acceptOf m s ic oc b).2 b).2)
        else
          if (_upload_find_method (freeImpl (acceptOf m s ic oc b).2)).2 then
            ((uploadLoop canShare ic oc b n
                (_upload_find_method (freeImpl (acceptOf m s ic oc b).2)).1).1,
              (uploadLoop canShare ic oc b n
                (_upload_find_method (freeImpl (acceptOf m s ic oc b).2)).1).2.1,
              Event.tryAccept m true ::
                Event.didPerform m (performOf canShare m (acceptOf m s ic oc b).2 b).1 ::
                (uploadLoop canShare ic oc b n
                  (_upload_find_method (freeImpl (acceptOf m s ic oc b).2)).1).2.2.1,
              (uploadLoop canShare ic oc b n
                (_upload_find_method (freeImpl (acceptOf m s ic oc b).2)).1).2.2.2)
          else
            ((_upload_find_method (freeImpl (acceptOf m s ic oc b).2)).1, URet.ret 0,
              [Event.tryAccept m true,
                Event.didPerform m (performOf canShare m (acceptOf m s ic oc b).2 b).1],
              none)
      else
        if (_upload_find_method (acceptOf m s ic oc b).2).2 then
          ((uploadLoop canShare ic oc b n (_upload_find_method (acceptOf m s ic oc b).2).1).1,
            (uploadLoop canShare ic oc b n (_upload_find_method (acceptOf m s ic oc b).2).1).2.1,
            Event.tryAccept m false ::
              (uploadLoop canShare ic oc b n
                (_upload_find_method (acceptOf m s ic oc b).2).1).2.2.1,
            (uploadLoop canShare ic oc b n (_upload_find_method (acceptOf m s ic oc b).2).1).2.2.2)
        else ((_upload_find_method (acceptOf m s ic oc b).2).1, URet.ret 0,
          [Event.tryAccept m false], none) := by
  rw [uploadLoop, hm, hi]

theorem uploadLoop_method_i_mono (canShare : Nat → Nat → Bool) (ic oc : Caps)
    (b : Buffer) : ∀ fuel s,
    s.method_i ≤ ((uploadLoop canShare ic oc b fuel s).1).method_i := by
  intro fuel
  induction fuel with
  | zero => intro s; simp [uploadLoop]
  | succ n ih =>
    intro s
    rcases hm : s.method with _ | m
    · rw [uploadLoop, hm]
    · rcases hi : s.methodImpl with _ | impl
      · rw [uploadLoop, hm, hi]
      · rw [uploadLoop_succ_eq canShare ic oc b n s m impl hm hi]
        have hacc := acceptOf_preserves m s ic oc b
        split
        · split
          · refine le_trans ?_ (ih (forceRawMethod (acceptOf m s ic oc b).2))
            rw [forceRawMethod_method_i, hacc.2.2.1]
          · split
            · simp [hacc.2.2.1]
            · split
              · refine le_trans ?_ (ih _)
                refine le_trans ?_ (find_method_method_i_le _)
                rw [freeImpl_method_i, hacc.2.2.1]
              · simp only []
                refine le_trans ?_ (find_method_method_i_le _)
                rw [freeImpl_method_i, hacc.2.2.1]
        · split
          · refine le_trans ?_ (ih _)
            refine le_trans ?_ (find_method_method_i_le _)
            rw [hacc.2.2.1]
          · simp only []
            refine le_trans ?_ (find_method_method_i_le _)
            rw [hacc.2.2.1]

theorem countAccepts_nil : countAccepts [] = 0 := rfl

theorem countAccepts_cons_accept (m : Nat) (ok : Bool) (evs : List Event) :
    countAccepts (Event.tryAccept m ok :: evs) = countAccepts evs + 1 := by
  simp [countAccepts, List.countP_cons]

theorem countAccepts_cons_perform (m : Nat) (r : Int) (evs : List Event) :
    countAccepts (Event.didPerform m r :: evs) = countAccepts evs := by
  simp [countAccepts, List.countP_cons]

theorem countAcceptsAt_nil (k : Nat) : countAcceptsAt k [] = 0 := rfl

theorem countAcceptsAt_cons_accept (k mm : Nat) (ok : Bool) (evs : List Event) :
    countAcceptsAt k (Event.tryAccept mm ok :: evs) =
      countAcceptsAt k evs + (if mm = k then 1 else 0) := by
  by_cases h : mm = k <;> simp [countAcceptsAt, List.countP_cons, h]

theorem countAcceptsAt_cons_perform (k mm : Nat) (r : Int) (evs : List Event) :
    countAcceptsAt k (Event.didPerform mm r :: evs) = countAcceptsAt k evs := by
  simp [countAcceptsAt, List.countP_cons]

theorem performOf_neg3 (canShare : Nat → Nat → Bool) (m : Nat) (s : UState)
    (b : Buffer) (h : (performOf canShare m s b).1 = -3) : m = 0 := by
  rcases m with _ | _ | _ | m
  · rfl
  · simp [performOf, _egl_image_upload_perform] at h
  · simp only [performOf, _upload_meta_upload_perform] at h
    split at h <;> omega
  · simp [performOf, _raw_data_upload_perform] at h

theorem freeImpl_nextId (s : UState) : (freeImpl s).nextId = s.nextId := by
  rcases h : s.methodImpl with _ | iid <;> simp [freeImpl, h]

theorem forceRawMethod_shape (s : UState) :
    (forceRawMethod s).method = some 3 ∧
      (forceRawMethod s).methodImpl = some s.nextId ∧
      (forceRawMethod s).method_i = s.method_i := by
  simp [forceRawMethod, freeImpl_nextId, freeImpl_method_i]

theorem find_method_fail (s : UState) (h : 4 ≤ s.method_i) :
    _upload_find_method s = (s, false) := by
  simp [_upload_find_method, h]

theorem find_method_success (s : UState) (h : s.method_i < 4) :
    ((_upload_find_method s).1).method = some s.method_i ∧
      ((_upload_find_method s).1).methodImpl = some ((freeImpl s).nextId) ∧
      ((_upload_find_method s).1).method_i = s.method_i + 1 ∧
      (_upload_find_method s).2 = true := by
  have h2 : ¬ 4 ≤ s.method_i := by omega
  simp [_upload_find_method, h2]

theorem uploadLoop_spec (canShare : Nat → Nat → Bool) (ic oc : Caps)
    (b : Buffer) : ∀ fuel s m impl, s.method = some m → s.methodImpl = some impl →
    m ≤ 3 → 1 ≤ s.method_i → s.method_i ≤ 4 → (m + 1 = s.method_i ∨ m = 3) →
    (4 - s.method_i) + 1 + (if m = 0 then 1 else 0) < fuel →
    puRet (uploadLoop canShare ic oc b fuel s) ≠ URet.outOfFuel ∧
    countAccepts (puEvents (uploadLoop canShare ic oc b fuel s)) ≤
      (4 - s.method_i) + 1 + (if m = 0 then 1 else 0) ∧
    (∀ k, k ≤ 2 → countAcceptsAt k (puEvents (uploadLoop canShare ic oc b fuel s)) ≤
      (if k = m then 1 else if s.method_i ≤ k then 1 else 0)) ∧
    countAcceptsAt 3 (puEvents (uploadLoop canShare ic oc b fuel s)) ≤
      (if s.method_i ≤ 3 then 1 else 0) + (if m = 3 then 1 else 0) +
        (if m = 0 then 1 else 0) := by
  intro fuel
  induction fuel with
  | zero =>
    intro s m impl hm hi hm3 hmi1 hmi4 halt hfuel
    omega
  | succ n ih =>
    intro s m impl hm hi hm3 hmi1 hmi4 halt hfuel
    have hacc := acceptOf_preserves m s ic oc b
    rw [uploadLoop_succ_eq canShare ic oc b n s m impl hm hi]
    split
    · -- accept succeeded
      split
      · -- UNSHARED_GL_CONTEXT: forced raw fallback
        rename_i hok hp3
        have hp3v : (performOf canShare m (acceptOf m s ic oc b).2 b).1 = -3 := by
          simpa using hp3
        have hm0 : m = 0 := performOf_neg3 canShare m _ b hp3v
        have hmi : s.method_i = 1 := by omega
        have hshape := forceRawMethod_shape (acceptOf m s ic oc b).2
        have hmi2 : (forceRawMethod (acceptOf m s ic oc b).2).method_i = s.method_i := by
          rw [forceRawMethod_method_i, hacc.2.2.1]
        have hrec := ih (forceRawMethod (acceptOf m s ic oc b).2) 3 _
          hshape.1 hshape.2.1 (by omega) (by omega) (by omega) (Or.inr rfl)
          (by rw [hmi2]; simp only [hm0, hmi] at hfuel ⊢; simp at hfuel ⊢; omega)
        rw [hmi2] at hrec
        simp only [puRet, puEvents] at hrec
        refine ⟨hrec.1, ?_, ?_, ?_⟩
        · simp only [puEvents, countAccepts_cons_accept, countAccepts_cons_perform]
          have h1 := hrec.2.1
          simp at h1
          split_ifs at h1 ⊢; omega
        · intro k hk
          simp only [puEvents, countAcceptsAt_cons_accept, countAcceptsAt_cons_perform]
          have h1 := hrec.2.2.1 k hk
          simp at h1
          split_ifs at h1 ⊢ <;> omega
        · simp only [puEvents, countAcceptsAt_cons_accept, countAcceptsAt_cons_perform]
          have h1 := hrec.2.2.2
          simp at h1
          split_ifs at h1 ⊢ <;> omega
      · split
        · -- DONE
          refine ⟨by simp [puRet], ?_, ?_, ?_⟩
          · simp only [puEvents, countAccepts_cons_accept, countAccepts_cons_perform,
              countAccepts_nil]
            split_ifs <;> omega
          · intro k hk
            simp only [puEvents, countAcceptsAt_cons_accept,
              countAcceptsAt_cons_perform, countAcceptsAt_nil]
            split_ifs <;> omega
          · simp only [puEvents, countAcceptsAt_cons_accept,
              countAcceptsAt_cons_perform, countAcceptsAt_nil]
            split_ifs <;> omega
        · -- perform error: NEXT_METHOD
          split
          · rename_i hfound
            have hmi2 : (freeImpl (acceptOf m s ic oc b).2).method_i = s.method_i := by
              rw [freeImpl_method_i, hacc.2.2.1]
            have hlt : s.method_i < 4 := by
              by_contra hge
              have h4 : 4 ≤ (freeImpl (acceptOf m s ic oc b).2).method_i := by omega
              rw [find_method_fail _ h4] at hfound
              simp at hfound
            have hfs := find_method_success (freeImpl (acceptOf m s ic oc b).2)
              (by omega)
            rw [hmi2] at hfs
            have hrec := ih _ s.method_i _ hfs.1 hfs.2.1 (by omega)
              (by rw [hfs.2.2.1]; omega) (by rw [hfs.2.2.1]; omega)
              (by left; rw [hfs.2.2.1])
              (by rw [hfs.2.2.1]; split_ifs <;> omega)
            rw [hfs.2.2.1] at hrec
            simp only [puRet, puEvents] at hrec
            refine ⟨hrec.1, ?_, ?_, ?_⟩
            · simp only [puEvents, countAccepts_cons_accept, countAccepts_cons_perform]
              have h1 := hrec.2.1
              split_ifs at h1 ⊢ <;> omega
            · intro k hk
              simp only [puEvents, countAcceptsAt_cons_accept,
                countAcceptsAt_cons_perform]
              have h1 := hrec.2.2.1 k hk
              split_ifs at h1 ⊢ <;> omega
            · simp only [puEvents, countAcceptsAt_cons_accept,
                countAcceptsAt_cons_perform]
              have h1 := hrec.2.2.2
              split_ifs at h1 ⊢ <;> omega
          · -- perform error, catalog exhausted
            refine ⟨by simp [puRet], ?_, ?_, ?_⟩
            · simp only [puEvents, countAccepts_cons_accept, countAccepts_cons_perform,
                countAccepts_nil]
              split_ifs <;> omega
            · intro k hk
              simp only [puEvents, countAcceptsAt_cons_accept,
                countAcceptsAt_cons_perform, countAcceptsAt_nil]
              split_ifs <;> omega
            · simp only [puEvents, countAcceptsAt_cons_accept,
                countAcceptsAt_cons_perform, countAcceptsAt_nil]
              split_ifs <;> omega
    · -- rejected: NEXT_METHOD
      split
      · rename_i hfound
        have hmi2 : ((acceptOf m s ic oc b).2).method_i = s.method_i := hacc.2.2.1
        have hlt : s.method_i < 4 := by
          by_contra hge
          have h4 : 4 ≤ ((acceptOf m s ic oc b).2).method_i := by omega
          rw [find_method_fail _ h4] at hfound
          simp at hfound
        have hfs := find_method_success ((acceptOf m s ic oc b).2) (by omega)
        rw [hmi2] at hfs
        have hrec := ih _ s.method_i _ hfs.1 hfs.2.1 (by omega)
          (by rw [hfs.2.2.1]; omega) (by rw [hfs.2.2.1]; omega)
          (by left; rw [hfs.2.2.1])
          (by rw [hfs.2.2.1]; split_ifs <;> omega)
        rw [hfs.2.2.1] at hrec
        simp only [puRet, puEvents] at hrec
        refine ⟨hrec.1, ?_, ?_, ?_⟩
        · simp only [puEvents, countAccepts_cons_accept]
          have h1 := hrec.2.1
          split_ifs at h1 ⊢ <;> omega
        · intro k hk
          simp only [puEvents, countAcceptsAt_cons_accept]
          have h1 := hrec.2.2.1 k hk
          split_ifs at h1 ⊢ <;> omega
        · simp only [puEvents, countAcceptsAt_cons_accept]
          have h1 := hrec.2.2.2
          split_ifs at h1 ⊢ <;> omega
      · -- rejected, catalog exhausted
        refine ⟨by simp [puRet], ?_, ?_, ?_⟩
        · simp only [puEvents, countAccepts_cons_accept, countAccepts_nil]
          split_ifs <;> omega
        · intro k hk
          simp only [puEvents, countAcceptsAt_cons_accept, countAcceptsAt_nil]
          split_ifs <;> omega
        · simp only [puEvents, countAcceptsAt_cons_accept, countAcceptsAt_nil]
          split_ifs <;> omega

/-- Instance-liveness invariant: the live strategy instances are exactly the
four `upload_impl` array entries created by `gst_gl_upload_new` plus, when a
current method exists, its single `method_impl` instance (with a fresh id). -/
def liveInv (s : UState) : Bool :=
  match s.methodImpl, s.method with
  | some iid, some m =>
      (4 ≤ iid) && (iid < s.nextId) && (s.live == baseLive ++ [(iid, m)])
  | some _, none => false
  | none, _ => (4 ≤ s.nextId) && (s.live == baseLive)

theorem baseLive_filter_ne (iid : Nat) (h : 4 ≤ iid) :
    (baseLive ++ [(iid, mm)]).filter (fun p => p.1 ≠ iid) = baseLive := by
  have h0 : (0 : Nat) ≠ iid := by omega
  have h1 : (1 : Nat) ≠ iid := by omega
  have h2 : (2 : Nat) ≠ iid := by omega
  have h3 : (3 : Nat) ≠ iid := by omega
  simp [baseLive, h0, h1, h2, h3]

theorem liveInv_freeImpl (s : UState) (h : liveInv s = true) :
    liveInv (freeImpl s) = true := by
  rcases hi : s.methodImpl with _ | iid
  · rw [freeImpl, hi]
    exact h
  · rcases hm : s.method with _ | m
    · rw [liveInv, hi, hm] at h
      simp at h
    · rw [liveInv, hi, hm] at h
      simp only [Bool.and_eq_true, beq_iff_eq, decide_eq_true_eq] at h
      rw [freeImpl, hi]
      rw [liveInv]
      simp only [hm]
      simp only [Bool.and_eq_true, beq_iff_eq, decide_eq_true_eq]
      constructor
      · omega
      · rw [h.2, baseLive_filter_ne iid (by omega)]

theorem find_method_success_eq (s : UState) (h : s.method_i < 4) :
    _upload_find_method s =
      ({ freeImpl s with
          method := some s.method_i
          methodImpl := some (freeImpl s).nextId
          live := (freeImpl s).live ++ [((freeImpl s).nextId, s.method_i)]
          nextId := (freeImpl s).nextId + 1
          method_i := s.method_i + 1 }, true) := by
  have h2 : ¬ 4 ≤ s.method_i := by omega
  rw [_upload_find_method, if_neg h2]

theorem freeImpl_methodImpl (s : UState) : (freeImpl s).methodImpl = none := by
  rcases hi : s.methodImpl with _ | iid <;> simp [freeImpl, hi]

theorem liveInv_find (s : UState) (h : liveInv s = true) :
    liveInv ((_upload_find_method s).1) = true := by
  by_cases h4 : 4 ≤ s.method_i
  · rw [find_method_fail s h4]
    exact h
  · have hfree := liveInv_freeImpl s h
    have hnone := freeImpl_methodImpl s
    rw [find_method_success_eq s (by omega)]
    simp only [liveInv]
    rw [liveInv, hnone] at hfree
    simp only [Bool.and_eq_true, beq_iff_eq, decide_eq_true_eq] at hfree
    simp only [Bool.and_eq_true, beq_iff_eq, decide_eq_true_eq]
    refine ⟨⟨by omega, by omega⟩, by rw [hfree.2]⟩

theorem liveInv_forceRaw (s : UState) (h : liveInv s = true) :
    liveInv (forceRawMethod s) = true := by
  have hfree := liveInv_freeImpl s h
  have hnone := freeImpl_methodImpl s
  simp only [forceRawMethod]
  simp only [liveInv]
  rw [liveInv, hnone] at hfree
  simp only [Bool.and_eq_true, beq_iff_eq, decide_eq_true_eq] at hfree
  simp only [Bool.and_eq_true, beq_iff_eq, decide_eq_true_eq]
  refine ⟨⟨by omega, by omega⟩, by rw [hfree.2]⟩

theorem liveInv_congr (s t : UState) (h1 : s.methodImpl = t.methodImpl)
    (h2 : s.method = t.method) (h3 : s.nextId = t.nextId)
    (h4 : s.live = t.live) : liveInv s = liveInv t := by
  unfold liveInv
  rw [h1, h2, h3, h4]

theorem liveInv_of_fields (t base : UState) (h : liveInv base = true)
    (h1 : t.methodImpl = base.methodImpl) (h2 : t.method = base.method)
    (h3 : t.nextId = base.nextId) (h4 : t.live = base.live) :
    liveInv t = true := by
  rw [liveInv_congr t base h1 h2 h3 h4]
  exact h

theorem liveInv_acceptOf (m : Nat) (s : UState) (ic oc : Caps) (b : Buffer)
    (h : liveInv s = true) : liveInv ((acceptOf m s ic oc b).2) = true := by
  have hacc := acceptOf_preserves m s ic oc b
  rw [liveInv_congr _ s hacc.2.1 hacc.1 hacc.2.2.2.2.1 hacc.2.2.2.1]
  exact h

theorem uploadLoop_liveInv (canShare : Nat → Nat → Bool) (ic oc : Caps)
    (b : Buffer) : ∀ fuel s, liveInv s = true →
    liveInv ((uploadLoop canShare ic oc b fuel s).1) = true := by
  intro fuel
  induction fuel with
  | zero => intro s h; exact h
  | succ n ih =>
    intro s h
    rcases hm : s.method with _ | m
    · rw [uploadLoop, hm]
      exact h
    · rcases hi : s.methodImpl with _ | impl
      · rw [uploadLoop, hm, hi]
        exact h
      · rw [uploadLoop_succ_eq canShare ic oc b n s m impl hm hi]
        have ha := liveInv_acceptOf m s ic oc b h
        split
        · split
          · exact ih _ (liveInv_forceRaw _ ha)
          · split
            · exact ha
            · split
              · exact ih _ (liveInv_find _ (liveInv_freeImpl _ ha))
              · exact liveInv_find _ (liveInv_freeImpl _ ha)
        · split
          · exact ih _ (liveInv_find _ ha)
          · exact liveInv_find _ ha

theorem perform_with_buffer_liveInv (canShare : Nat → Nat → Bool) (s : UState)
    (b : Buffer) (h : liveInv s = true) :
    liveInv (puState (gst_gl_upload_perform_with_buffer canShare s b)) = true := by
  rw [gst_gl_upload_perform_with_buffer]
  rcases hic : s.inCaps with _ | ic
  · exact h
  · rcases hoc : s.outCaps with _ | oc
    · exact h
    · have h1 : liveInv (if s.methodImpl.isNone then (_upload_find_method s).1 else s)
          = true := by
        split
        · exact liveInv_find _ h
        · exact h
      have h2 := uploadLoop_liveInv canShare ic oc b 16 _ h1
      simp only [puState]
      split
      · split
        · exact h2
        · exact h2
      · exact h2

theorem set_caps_liveInv (infoOf : Caps → VideoInfo) (s : UState)
    (inCaps outCaps : Caps) (h : liveInv s = true) :
    liveInv ((gst_gl_upload_set_caps infoOf s inCaps outCaps).1) = true := by
  rw [gst_gl_upload_set_caps, _gst_gl_upload_set_caps_unlocked]
  split
  · exact h
  · split
    · exact h
    · exact liveInv_of_fields _ (freeImpl s) (liveInv_freeImpl s h) rfl rfl rfl rfl

theorem performOf_out (canShare : Nat → Nat → Bool) (m : Nat) (s : UState)
    (b : Buffer) (pre : Buffer) (h : (performOf canShare m s b).2 = some pre) :
    pre = b ∨ pre.oid = b.oid + 1 := by
  rcases m with _ | _ | _ | m
  · have he : performOf canShare 0 s b = _gl_memory_upload_perform canShare s.ctx b := rfl
    rw [he, _gl_memory_upload_perform] at h
    split at h
    · simp at h
      left
      exact h.symm
    · simp at h
  · have he : performOf canShare 1 s b = _egl_image_upload_perform s.ctx s.outInfo b := rfl
    rw [he, _egl_image_upload_perform] at h
    simp at h
    right
    rw [← h, freshGLBuffer]
  · have he : performOf canShare 2 s b = _upload_meta_upload_perform s.ctx s.inInfo b := rfl
    rw [he, _upload_meta_upload_perform] at h
    simp at h
    right
    rw [← h, freshGLBuffer]
  · have he : performOf canShare (m + 1 + 1 + 1) s b =
        _raw_data_upload_perform s.ctx s.inInfo b := rfl
    rw [he, _raw_data_upload_perform] at h
    simp at h
    right
    rw [← h, freshGLBuffer]

theorem uploadLoop_done_out (canShare : Nat → Nat → Bool) (ic oc : Caps)
    (b : Buffer) : ∀ fuel s pre,
    puRet (uploadLoop canShare ic oc b fuel s) = URet.ret 1 →
    puOut (uploadLoop canShare ic oc b fuel s) = some pre →
    pre = b ∨ pre.oid = b.oid + 1 := by
  intro fuel
  induction fuel with
  | zero => intro s pre h1 h2; simp [uploadLoop, puRet] at h1
  | succ n ih =>
    intro s pre h1 h2
    rcases hm : s.method with _ | m
    · rw [uploadLoop, hm] at h1
      simp [puRet] at h1
    · rcases hi : s.methodImpl with _ | impl
      · rw [uploadLoop, hm, hi] at h1
        simp [puRet] at h1
      · rw [uploadLoop_succ_eq canShare ic oc b n s m impl hm hi] at h1 h2
        by_cases hA : ((acceptOf m s ic oc b).1 = true)
        · rw [if_pos hA] at h1 h2
          by_cases hP3 : (((performOf canShare m (acceptOf m s ic oc b).2 b).1 == -3) = true)
          · rw [if_pos hP3] at h1 h2
            exact ih _ _ h1 h2
          · rw [if_neg hP3] at h1 h2
            by_cases hP1 : (((performOf canShare m (acceptOf m s ic oc b).2 b).1 == 1) = true)
            · rw [if_pos hP1] at h1 h2
              simp only [puOut] at h2
              exact performOf_out canShare m _ b pre h2
            · rw [if_neg hP1] at h1 h2
              by_cases hF : ((_upload_find_method (freeImpl (acceptOf m s ic oc b).2)).2 = true)
              · rw [if_pos hF] at h1 h2
                exact ih _ _ h1 h2
              · rw [if_neg hF] at h1 h2
                simp [puRet] at h1
        · rw [if_neg hA] at h1 h2
          by_cases hF : ((_upload_find_method (acceptOf m s ic oc b).2).2 = true)
          · rw [if_pos hF] at h1 h2
            exact ih _ _ h1 h2
          · rw [if_neg hF] at h1 h2
            simp [puRet] at h1

theorem uploadLoop_no_impl (canShare : Nat → Nat → Bool) (ic oc : Caps)
    (b : Buffer) (n : Nat) (s : UState) (h : s.methodImpl = none) :
    uploadLoop canShare ic oc b (n + 1) s = (s, URet.ub, [], none) := by
  rcases hm : s.method with _ | m
  · rw [uploadLoop, hm]
  · rw [uploadLoop, hm, h]

theorem baseLive_countAt (mm : Nat) :
    ((baseLive.filter fun p => p.2 == mm).length) ≤ 1 := by
  rcases mm with _ | _ | _ | _ | mm <;> simp [baseLive]

/-! ### Claim theorems -/

/-- C1: when the accepted strategy's perform returns
`GST_GL_UPLOAD_UNSHARED_GL_CONTEXT` (-3), the session destroys the current
strategy instance, force-selects the Raw Data strategy (catalog index 3,
bypassing `method_i` and the normal ordering), instantiates it, and restarts
the loop from `accept` against the same frame; the -3 value is never the
result of the loop, so it is never surfaced to the caller of
`gst_gl_upload_perform_with_buffer`. -/
theorem c1_runtime_incompatible_forces_raw_retry (canShare : Nat → Nat → Bool)
    (ic oc : Caps) (b : Buffer) :
    (∀ fuel s v, puRet (uploadLoop canShare ic oc b fuel s) = URet.ret v →
      v ≠ -3) ∧
    (∀ s, forceRawMethod s =
        { freeImpl s with
            method := some 3
            methodImpl := some s.nextId
            live := (freeImpl s).live ++ [(s.nextId, 3)]
            nextId := s.nextId + 1 } ∧
      (forceRawMethod s).method_i = s.method_i) ∧
    (∀ n s m impl, s.method = some m → s.methodImpl = some impl →
      (acceptOf m s ic oc b).1 = true →
      (performOf canShare m (acceptOf m s ic oc b).2 b).1 = -3 →
      uploadLoop canShare ic oc b (n + 1) s =
        ((uploadLoop canShare ic oc b n
            (forceRawMethod (acceptOf m s ic oc b).2)).1,
          (uploadLoop canShare ic oc b n
            (forceRawMethod (acceptOf m s ic oc b).2)).2.1,
          Event.tryAccept m true :: Event.didPerform m (-3) ::
            (uploadLoop canShare ic oc b n
              (forceRawMethod (acceptOf m s ic oc b).2)).2.2.1,
          (uploadLoop canShare ic oc b n
            (forceRawMethod (acceptOf m s ic oc b).2)).2.2.2)) ∧
    (∀ n s, s.method = some 3 → (∃ i2, s.methodImpl = some i2) →
      ∃ ok rest, puEvents (uploadLoop canShare ic oc b (n + 1) s) =
        Event.tryAccept 3 ok :: rest) := by
  refine ⟨?_, ?_, ?_, ?_⟩
  · intro fuel s v h
    have := uploadLoop_ret_val canShare ic oc b fuel s v h
    omega
  · intro s
    constructor
    · simp [forceRawMethod, freeImpl_nextId]
    · exact forceRawMethod_method_i s
  · intro n s m impl hm hi hA hp
    rw [uploadLoop_succ_eq canShare ic oc b n s m impl hm hi, if_pos hA, hp]
    simp
  · intro n s h3 hex
    rcases hex with ⟨i2, hi⟩
    rw [uploadLoop_succ_eq canShare ic oc b n s 3 i2 h3 hi]
    split
    · split
      · exact ⟨true, _, rfl⟩
      · split
        · exact ⟨true, _, rfl⟩
        · split
          · exact ⟨true, _, rfl⟩
          · exact ⟨true, _, rfl⟩
    · split
      · exact ⟨false, _, rfl⟩
      · exact ⟨false, _, rfl⟩

/-- State after the entry `_upload_find_method` on the GL-to-GL session. -/
def sFindGL : UState := (_upload_find_method sGLGL).1

/-- State after the forced Raw Data fallback in the witness run. -/
def sForcedW : UState :=
  forceRawMethod (acceptOf 0 sFindGL capGL capGL bufGLForeign).2

theorem c1_runtime_incompatible_witness :
    (acceptOf 0 sFindGL capGL capGL bufGLForeign).1 = true ∧
    (performOf canShareF 0 (acceptOf 0 sFindGL capGL capGL bufGLForeign).2
        bufGLForeign).1 = -3 ∧
    uploadLoop canShareF capGL capGL bufGLForeign 9 sFindGL =
      ((uploadLoop canShareF capGL capGL bufGLForeign 8 sForcedW).1,
        (uploadLoop canShareF capGL capGL bufGLForeign 8 sForcedW).2.1,
        Event.tryAccept 0 true :: Event.didPerform 0 (-3) ::
          (uploadLoop canShareF capGL capGL bufGLForeign 8 sForcedW).2.2.1,
        (uploadLoop canShareF capGL capGL bufGLForeign 8 sForcedW).2.2.2) :=
  ⟨by decide, by decide,
    (c1_runtime_incompatible_forces_raw_retry canShareF capGL capGL
      bufGLForeign).2.2.1 8 sFindGL 0 4 (by decide) (by decide) (by decide)
      (by decide)⟩

/-- Well-formedness of the method-selection fields, established by
`gst_gl_upload_new` / `gst_gl_upload_set_caps` and preserved by uploads:
`method_i` never exceeds the catalog size, and a current instance belongs
either to the most recently tried candidate or to the forced Raw Data
strategy. -/
def stateOK (s : UState) : Bool :=
  (s.method_i ≤ 4) &&
    match s.methodImpl, s.method with
    | some _, some m => (m ≤ 3) && (1 ≤ s.method_i) &&
        ((m + 1 == s.method_i) || (m == 3))
    | some _, none => false
    | none, _ => true

/-- C2 (amended): from any well-formed session state with negotiated caps,
one `gst_gl_upload_perform_with_buffer` call terminates (the fuel bound of
the embedding is never reached), invokes `accept` at most 5 = N + 1 times
(N = 4 catalog strategies), invokes `accept` of each of the strategies at
catalog indices 0..2 at most once, and invokes `accept` of the Raw Data
strategy (index 3) at most twice — the second visit arises when the forced
`RuntimeIncompatible` fallback rejected and the normal order later reaches
Raw Data again. -/
theorem c2_fallback_loop_terminates_bounded (canShare : Nat → Nat → Bool)
    (s : UState) (b : Buffer) (ic oc : Caps)
    (h1 : s.inCaps = some ic) (h2 : s.outCaps = some oc)
    (h3 : stateOK s = true) :
    puRet (gst_gl_upload_perform_with_buffer canShare s b) ≠ URet.outOfFuel ∧
    countAccepts (puEvents (gst_gl_upload_perform_with_buffer canShare s b)) ≤ 5 ∧
    (∀ k, k ≤ 2 →
      countAcceptsAt k (puEvents (gst_gl_upload_perform_with_buffer canShare s b)) ≤ 1) ∧
    countAcceptsAt 3 (puEvents (gst_gl_upload_perform_with_buffer canShare s b)) ≤ 2 := by
  have key : puRet (uploadLoop canShare ic oc b 16
        (if s.methodImpl.isNone then (_upload_find_method s).1 else s)) ≠ URet.outOfFuel ∧
      countAccepts (puEvents (uploadLoop canShare ic oc b 16
        (if s.methodImpl.isNone then (_upload_find_method s).1 else s))) ≤ 5 ∧
      (∀ k, k ≤ 2 → countAcceptsAt k (puEvents (uploadLoop canShare ic oc b 16
        (if s.methodImpl.isNone then (_upload_find_method s).1 else s))) ≤ 1) ∧
      countAcceptsAt 3 (puEvents (uploadLoop canShare ic oc b 16
        (if s.methodImpl.isNone then (_upload_find_method s).1 else s))) ≤ 2 := by
    rcases hi : s.methodImpl with _ | impl
    · simp only [hi, Option.isNone_none, if_pos]
      by_cases h4 : 4 ≤ s.method_i
      · rw [find_method_fail s h4]
        have hnone := hi
        rw [uploadLoop_no_impl canShare ic oc b 15 s hi]
        refine ⟨by simp [puRet], ?_, ?_, ?_⟩
        · simp [puEvents, countAccepts_nil]
        · intro k hk
          simp [puEvents, countAcceptsAt_nil]
        · simp [puEvents, countAcceptsAt_nil]
      · have hfs := find_method_success s (by omega)
        have hsp := uploadLoop_spec canShare ic oc b 16 _ s.method_i _
          hfs.1 hfs.2.1 (by omega) (by rw [hfs.2.2.1]; omega)
          (by rw [hfs.2.2.1]; omega) (by left; rw [hfs.2.2.1])
          (by rw [hfs.2.2.1]; split_ifs <;> omega)
        rw [hfs.2.2.1] at hsp
        refine ⟨hsp.1, ?_, ?_, ?_⟩
        · have := hsp.2.1
          split_ifs at this <;> omega
        · intro k hk
          have := hsp.2.2.1 k hk
          split_ifs at this <;> omega
        · have := hsp.2.2.2
          split_ifs at this <;> omega
    · simp only [hi, Option.isNone_some, Bool.false_eq_true, if_false, if_neg]
      rcases hm : s.method with _ | m
      · rw [stateOK, hi, hm] at h3
        simp at h3
      · rw [stateOK, hi, hm] at h3
        simp only [Bool.and_eq_true, Bool.or_eq_true, beq_iff_eq,
          decide_eq_true_eq] at h3
        have hsp := uploadLoop_spec canShare ic oc b 16 s m impl hm hi
          (by omega) (by omega) (by omega) (by omega)
          (by split_ifs <;> omega)
        refine ⟨hsp.1, ?_, ?_, ?_⟩
        · have := hsp.2.1
          split_ifs at this <;> omega
        · intro k hk
          have := hsp.2.2.1 k hk
          split_ifs at this <;> omega
        · have := hsp.2.2.2
          split_ifs at this <;> omega
  rw [gst_gl_upload_perform_with_buffer, h1, h2]
  simp only []
  split
  · split
    · refine ⟨by simp [puRet], ?_, ?_, ?_⟩
      · simpa [puEvents] using key.2.1
      · intro k hk
        simpa [puEvents] using key.2.2.1 k hk
      · simpa [puEvents] using key.2.2.2
    · exact ⟨key.1, key.2.1, key.2.2.1, key.2.2.2⟩
  · exact ⟨key.1, key.2.1, key.2.2.1, key.2.2.2⟩

theorem c2_bounds_witness :
    stateOK sGLGL = true ∧
    countAccepts (puEvents (gst_gl_upload_perform_with_buffer canShareF sGLGL
      bufGLForeign)) ≤ 5 :=
  ⟨by decide,
    (c2_fallback_loop_terminates_bounded canShareF sGLGL bufGLForeign capGL capGL
      (by decide) (by decide) (by decide)).2.1⟩

/-- C2 counterexample: with a GL-to-GL session, a foreign-context GL frame
that cannot be mapped drives one `gst_gl_upload_perform_with_buffer` call to
5 accept attempts — more than the 4 catalog strategies — and the Raw Data
strategy is re-attempted after it has already rejected the frame (once via
the forced fallback, once in normal order). -/
theorem c2_attempt_bound_counterexample :
    countAccepts (puEvents (gst_gl_upload_perform_with_buffer canShareF sGLGL
      bufGLForeign)) = 5 ∧
    countAcceptsAt 3 (puEvents (gst_gl_upload_perform_with_buffer canShareF sGLGL
      bufGLForeign)) = 2 ∧
    puEvents (gst_gl_upload_perform_with_buffer canShareF sGLGL bufGLForeign) =
      [Event.tryAccept 0 true, Event.didPerform 0 (-3), Event.tryAccept 3 false,
        Event.tryAccept 1 false, Event.tryAccept 2 false,
        Event.tryAccept 3 false] := by
  refine ⟨by decide, by decide, by decide⟩

/-- Session negotiated system-memory to system-memory output (no GLMemory
feature on the output side, so every strategy rejects every frame). -/
def sRejAll : UState := (gst_gl_upload_set_caps infoFnW sNew capSys capSys).1

/-- C3 (amended): `gst_gl_upload_perform_with_buffer` has no two
distinguishable terminal failures: the only values it ever returns are
`GST_GL_UPLOAD_DONE` (1) and the literal C `FALSE` (0); both
catalog exhaustion by rejection and a perform-time error on the last
candidate surface as the same value 0. -/
theorem c3_terminal_failures_collapse (canShare : Nat → Nat → Bool)
    (s : UState) (b : Buffer) :
    ∀ v, puRet (gst_gl_upload_perform_with_buffer canShare s b) = URet.ret v →
      v = 0 ∨ v = 1 := by
  intro v h
  rw [gst_gl_upload_perform_with_buffer] at h
  rcases hic : s.inCaps with _ | ic
  · rw [hic] at h
    simp [puRet] at h
  · rcases hoc : s.outCaps with _ | oc
    · rw [hic, hoc] at h
      simp [puRet] at h
    · rw [hic, hoc] at h
      simp only [] at h
      rcases hr : (uploadLoop canShare ic oc b 16
          (if s.methodImpl.isNone = true then (_upload_find_method s).1 else s)).2.1 with
        v2 | _ | _
      · have hv2 : v2 = 0 ∨ v2 = 1 :=
          uploadLoop_ret_val canShare ic oc b 16 _ v2 hr
        rw [hr] at h
        rcases hb : (uploadLoop canShare ic oc b 16
            (if s.methodImpl.isNone = true then (_upload_find_method s).1 else s)).2.2.2 with
          _ | pre
        · rw [hb] at h
          simp only [puRet] at h
          injection h with h2
          omega
        · rw [hb] at h
          simp only [] at h
          by_cases hv : ((v2 == 1) = true)
          · rw [if_pos hv] at h
            simp only [puRet] at h
            injection h with h2
            omega
          · rw [if_neg hv] at h
            simp only [puRet] at h
            injection h with h2
            omega
      · rw [hr] at h
        simp only [puRet] at h
        simp at h
      · rw [hr] at h
        simp only [puRet] at h
        simp at h

theorem c3_collapse_witness :
    puRet (gst_gl_upload_perform_with_buffer canShareT sRejAll bufSysMap) =
      URet.ret 0 ∧ ((0 : Int) = 0 ∨ (0 : Int) = 1) :=
  ⟨by decide,
    c3_terminal_failures_collapse canShareT sRejAll bufSysMap 0 (by decide)⟩

/-- C3 counterexample: exhaustion by rejection (every strategy rejects a
frame on a session whose output caps lack the GLMemory feature) and a
perform-time error on the last remaining candidate (the consumer upload-meta
callback fails, then Raw Data rejects) both return the very same value
`FALSE` (0); the two terminal failures are not distinguishable in the
returned value, and no distinct `UploadFailed` value exists. -/
theorem c3_failures_indistinguishable_counterexample :
    puRet (gst_gl_upload_perform_with_buffer canShareT sRejAll bufSysMap) =
      URet.ret 0 ∧
    puRet (gst_gl_upload_perform_with_buffer canShareT sMeta bufMetaFail) =
      URet.ret 0 ∧
    puEvents (gst_gl_upload_perform_with_buffer canShareT sMeta bufMetaFail) =
      [Event.tryAccept 0 false, Event.tryAccept 1 false, Event.tryAccept 2 true,
        Event.didPerform 2 (-1), Event.tryAccept 3 false] := by
  refine ⟨by decide, by decide, by decide⟩

/-- C4 (amended): a frame whose memory count differs from the declared
planes-times-views count is rejected by the GLMemory and EGLImage accepts
(which check the count), but the UploadMeta and Raw Data accepts perform no
such check, so such a frame can still be accepted and uploaded and
`gst_gl_upload_perform_with_buffer` need not fail. -/
theorem c4_count_mismatch_rejected_by_gl_and_egl (ic oc : Caps)
    (info : VideoInfo) (b : Buffer)
    (h : b.mems.length ≠ expectedMemories info) :
    _gl_memory_upload_accept ic oc info b = false ∧
    _egl_image_upload_accept ic oc info b = false := by
  have hb : (b.mems.length != expectedMemories info) = true := by
    simp [h]
  constructor
  · rw [_gl_memory_upload_accept, hb]
    split_ifs <;> simp_all
  · rw [_egl_image_upload_accept, hb]
    split_ifs <;> simp_all

theorem c4_count_mismatch_witness :
    bufMismatch.mems.length ≠ expectedMemories infoW ∧
    _gl_memory_upload_accept capSys capGL infoW bufMismatch = false ∧
    _egl_image_upload_accept capSys capGL infoW bufMismatch = false :=
  ⟨by decide,
    c4_count_mismatch_rejected_by_gl_and_egl capSys capGL infoW bufMismatch
      (by decide)⟩

/-- C4 counterexample: on a system-memory to GL-memory session declaring two
planes, a frame with a single memory region (count mismatch) is rejected by
the GLMemory, EGLImage and UploadMeta strategies but accepted by Raw Data,
and the upload succeeds with `GST_GL_UPLOAD_DONE` (1) instead of failing
with `NoCompatibleStrategy`. -/
theorem c4_mismatch_uploaded_counterexample :
    bufMismatch.mems.length ≠ expectedMemories sSys.inInfo ∧
    puRet (gst_gl_upload_perform_with_buffer canShareT sSys bufMismatch) =
      URet.ret 1 := by
  refine ⟨by decide, by decide⟩

/-- C5: `gst_gl_upload_set_caps` with a caps pair equal (as caps) to the
stored pair returns TRUE and leaves the whole session state unchanged — no
instance churn, candidate index untouched; only when the pair differs does
it free the current instance and reset `method_i` to 0 (storing the new
caps and infos). -/
theorem c5_set_caps_idempotent (infoOf : Caps → VideoInfo) :
    (∀ s ic oc ic0 oc0, s.inCaps = some ic0 → s.outCaps = some oc0 →
      gst_caps_is_fixed ic = true → gst_caps_is_equal ic0 ic = true →
      gst_caps_is_equal oc0 oc = true →
      gst_gl_upload_set_caps infoOf s ic oc = (s, true)) ∧
    (∀ s ic oc, gst_caps_is_fixed ic = true →
      capsUnchanged s ic oc = false →
      gst_gl_upload_set_caps infoOf s ic oc =
        ({ freeImpl s with
            inCaps := some ic
            outCaps := some oc
            inInfo := infoOf ic
            outInfo := infoOf oc
            method_i := 0 }, true)) := by
  constructor
  · intro s ic oc ic0 oc0 hin hout hf he1 he2
    have hu : capsUnchanged s ic oc = true := by
      rw [capsUnchanged, hin, hout]
      simp [he1, he2]
    rw [gst_gl_upload_set_caps, _gst_gl_upload_set_caps_unlocked, hf, hu]
    simp
  · intro s ic oc hf hne
    rw [gst_gl_upload_set_caps, _gst_gl_upload_set_caps_unlocked, hf, hne]
    simp

theorem c5_set_caps_idempotent_witness :
    gst_gl_upload_set_caps infoFnW sSys capSys capGL = (sSys, true) :=
  (c5_set_caps_idempotent infoFnW).1 sSys capSys capGL capSys capGL
    (by decide) (by decide) (by decide) (by decide) (by decide)

/-- C6: `gst_gl_upload_set_caps` returns FALSE (the `InvalidFormat` failure)
and leaves the session untouched for every input caps value that is not
fixed, and it can return TRUE only when the input caps are fixed. -/
theorem c6_set_caps_requires_fixed (infoOf : Caps → VideoInfo) :
    (∀ s ic oc, gst_caps_is_fixed ic = false →
      gst_gl_upload_set_caps infoOf s ic oc = (s, false)) ∧
    (∀ s ic oc, (gst_gl_upload_set_caps infoOf s ic oc).2 = true →
      gst_caps_is_fixed ic = true) := by
  constructor
  · intro s ic oc hf
    rw [gst_gl_upload_set_caps, _gst_gl_upload_set_caps_unlocked, hf]
    simp
  · intro s ic oc h
    by_cases hf : gst_caps_is_fixed ic = true
    · exact hf
    · have hf2 : gst_caps_is_fixed ic = false := by
        rcases hb : gst_caps_is_fixed ic
        · rfl
        · exact absurd hb hf
      rw [gst_gl_upload_set_caps, _gst_gl_upload_set_caps_unlocked, hf2] at h
      simp at h

/-- The empty caps value, which is not fixed. -/
def capsEmpty : Caps := []

theorem c6_set_caps_requires_fixed_witness :
    gst_gl_upload_set_caps infoFnW sNew capsEmpty capGL = (sNew, false) :=
  (c6_set_caps_requires_fixed infoFnW).1 sNew capsEmpty capGL (by decide)

/-- C7: whenever `gst_gl_upload_perform_with_buffer` succeeds, if the output
buffer is a different object than the input, `gst_buffer_copy_into` copies
exactly the metadata envelope (flags and timestamps) of the input onto it,
leaving its memory regions (payload) untouched; if the output is the very
same buffer object, no copy is performed and the returned buffer is
literally the input. -/
theorem c7_metadata_envelope_propagation (canShare : Nat → Nat → Bool)
    (s : UState) (b : Buffer) (ic oc : Caps) (pre : Buffer)
    (h1 : s.inCaps = some ic) (h2 : s.outCaps = some oc)
    (hr : puRet (uploadLoop canShare ic oc b 16
      (if s.methodImpl.isNone then (_upload_find_method s).1 else s)) =
        URet.ret 1)
    (ho : puOut (uploadLoop canShare ic oc b 16
      (if s.methodImpl.isNone then (_upload_find_method s).1 else s)) =
        some pre) :
    gst_gl_upload_perform_with_buffer canShare s b =
      ((uploadLoop canShare ic oc b 16
          (if s.methodImpl.isNone then (_upload_find_method s).1 else s)).1,
        URet.ret 1,
        puEvents (uploadLoop canShare ic oc b 16
          (if s.methodImpl.isNone then (_upload_find_method s).1 else s)),
        some (if pre.oid ≠ b.oid then gst_buffer_copy_into pre b else pre)) ∧
    (pre.oid = b.oid → pre = b) ∧
    (gst_buffer_copy_into pre b).mems = pre.mems ∧
    (gst_buffer_copy_into pre b).flags = b.flags ∧
    (gst_buffer_copy_into pre b).pts = b.pts ∧
    (gst_buffer_copy_into pre b).dts = b.dts := by
  have hr2 : (uploadLoop canShare ic oc b 16
      (if s.methodImpl.isNone then (_upload_find_method s).1 else s)).2.1 =
        URet.ret 1 := hr
  have ho2 : (uploadLoop canShare ic oc b 16
      (if s.methodImpl.isNone then (_upload_find_method s).1 else s)).2.2.2 =
        some pre := ho
  refine ⟨?_, ?_, rfl, rfl, rfl, rfl⟩
  · rw [gst_gl_upload_perform_with_buffer, h1, h2]
    simp only [hr2, ho2]
    simp [puEvents]
  · intro heq
    rcases uploadLoop_done_out canShare ic oc b 16 _ pre hr ho with hsame | hfresh
    · exact hsame
    · omega

/-- The output buffer produced by the Raw Data path in the C7 witness run. -/
def preW : Buffer := freshGLBuffer 0 bufSysMap infoW 2

theorem c7_metadata_witness :
    gst_gl_upload_perform_with_buffer canShareT sSys bufSysMap =
      ((uploadLoop canShareT capSys capGL bufSysMap 16
          (if sSys.methodImpl.isNone then (_upload_find_method sSys).1
            else sSys)).1,
        URet.ret 1,
        puEvents (uploadLoop canShareT capSys capGL bufSysMap 16
          (if sSys.methodImpl.isNone then (_upload_find_method sSys).1
            else sSys)),
        some (if preW.oid ≠ bufSysMap.oid then gst_buffer_copy_into preW bufSysMap
          else preW)) ∧
    (gst_buffer_copy_into preW bufSysMap).mems = preW.mems ∧
    (gst_buffer_copy_into preW bufSysMap).flags = bufSysMap.flags :=
  ⟨((c7_metadata_envelope_propagation canShareT sSys bufSysMap capSys capGL preW
      (by decide) (by decide) (by decide) (by decide)).1),
    ((c7_metadata_envelope_propagation canShareT sSys bufSysMap capSys capGL preW
      (by decide) (by decide) (by decide) (by decide)).2.2.1),
    ((c7_metadata_envelope_propagation canShareT sSys bufSysMap capSys capGL preW
      (by decide) (by decide) (by decide) (by decide)).2.2.2.1)⟩

/-- C8 (amended): a session holds exactly the four per-strategy array
instances created by `gst_gl_upload_new` for its whole lifetime plus at most
one current instance, so at most two live instances of the same strategy
can coexist (the array one and the current one); the invariant is
established by `gst_gl_upload_new` and preserved by `gst_gl_upload_set_caps`
and `gst_gl_upload_perform_with_buffer`, i.e. every instance beyond the
array that stops being current is destroyed eagerly. -/
theorem c8_instance_liveness_invariant (canShare : Nat → Nat → Bool)
    (infoOf : Caps → VideoInfo) :
    (∀ c, liveInv (gst_gl_upload_new c) = true) ∧
    (∀ s ic oc, liveInv s = true →
      liveInv ((gst_gl_upload_set_caps infoOf s ic oc).1) = true) ∧
    (∀ s b, liveInv s = true →
      liveInv (puState (gst_gl_upload_perform_with_buffer canShare s b)) = true) ∧
    (∀ s, liveInv s = true → ∀ mm,
      ((s.live.filter fun p => p.2 == mm).length) ≤ 2) := by
  refine ⟨?_, ?_, ?_, ?_⟩
  · intro c
    simp [gst_gl_upload_new, liveInv]
  · intro s ic oc h
    exact set_caps_liveInv infoOf s ic oc h
  · intro s b h
    exact perform_with_buffer_liveInv canShare s b h
  · intro s h mm
    rw [liveInv] at h
    rcases hi : s.methodImpl with _ | iid <;> rw [hi] at h
    · simp only [Bool.and_eq_true, beq_iff_eq, decide_eq_true_eq] at h
      rw [h.2]
      exact le_trans (baseLive_countAt mm) (by omega)
    · rcases hm : s.method with _ | m <;> rw [hm] at h
      · simp at h
      · simp only [Bool.and_eq_true, beq_iff_eq, decide_eq_true_eq] at h
        rw [h.2, List.filter_append, List.length_append]
        have hbase := baseLive_countAt mm
        have hsingle : (([(iid, m)].filter fun p => p.2 == mm).length) ≤ 1 := by
          simp only [List.filter]
          split <;> simp
        omega

theorem c8_instance_liveness_witness :
    liveInv sGLGL = true ∧
    liveInv (puState (gst_gl_upload_perform_with_buffer canShareT sGLGL
      bufGLOwn)) = true :=
  ⟨by decide,
    (c8_instance_liveness_invariant canShareT infoFnW).2.2.1 sGLGL bufGLOwn
      (by decide)⟩

/-- C8 counterexample: after one successful GL-memory upload the session
holds two live instances for the GLMemory strategy (catalog index 0) at the
same time — the `upload_impl` array entry created by `gst_gl_upload_new`
and the current `method_impl` created by `_upload_find_method` — refuting
"the session never holds two live instances for the same strategy". -/
theorem c8_duplicate_instances_counterexample :
    puRet (gst_gl_upload_perform_with_buffer canShareT sGLGL bufGLOwn) =
      URet.ret 1 ∧
    (((puState (gst_gl_upload_perform_with_buffer canShareT sGLGL
      bufGLOwn)).live.filter fun p => p.2 == 0).length) = 2 := by
  refine ⟨by decide, by decide⟩

/-- C10 (amended): `gst_gl_upload_perform_with_buffer` never decreases (in
particular never resets) the candidate index `method_i`; `method_i` is set
to 0 only by `gst_gl_upload_set_caps` with a changed caps pair, while a
non-fixed or an unchanged pair leaves it untouched. (Exhaustion, however, is
not sticky: the last strategy stays current and is re-attempted by later
calls, which may succeed — see the counterexample.) -/
theorem c10_candidate_index_monotone (canShare : Nat → Nat → Bool)
    (infoOf : Caps → VideoInfo) :
    (∀ s b, s.method_i ≤
      (puState (gst_gl_upload_perform_with_buffer canShare s b)).method_i) ∧
    (∀ s ic oc, gst_caps_is_fixed ic = false →
      ((gst_gl_upload_set_caps infoOf s ic oc).1).method_i = s.method_i) ∧
    (∀ s ic oc, capsUnchanged s ic oc = true →
      ((gst_gl_upload_set_caps infoOf s ic oc).1).method_i = s.method_i) ∧
    (∀ s ic oc, gst_caps_is_fixed ic = true →
      capsUnchanged s ic oc = false →
      ((gst_gl_upload_set_caps infoOf s ic oc).1).method_i = 0) := by
  refine ⟨?_, ?_, ?_, ?_⟩
  · intro s b
    rw [gst_gl_upload_perform_with_buffer]
    rcases hic : s.inCaps with _ | ic
    · simp [puState]
    · rcases hoc : s.outCaps with _ | oc
      · simp [puState]
      · simp only []
        have hstep : s.method_i ≤
            (if s.methodImpl.isNone then (_upload_find_method s).1 else s).method_i := by
          split
          · exact find_method_method_i_le s
          · exact le_refl _
        have hloop := uploadLoop_method_i_mono canShare ic oc b 16
          (if s.methodImpl.isNone then (_upload_find_method s).1 else s)
        split
        · split
          · simp only [puState]
            omega
          · simp only [puState]
            omega
        · simp only [puState]
          omega
  · intro s ic oc hf
    rw [gst_gl_upload_set_caps, _gst_gl_upload_set_caps_unlocked, hf]
    simp
  · intro s ic oc heq
    rw [gst_gl_upload_set_caps, _gst_gl_upload_set_caps_unlocked, heq]
    split
    · rfl
    · simp
  · intro s ic oc hf hne
    rw [gst_gl_upload_set_caps, _gst_gl_upload_set_caps_unlocked, hf, hne]
    simp

theorem c10_candidate_index_witness :
    sSys.method_i ≤ (puState (gst_gl_upload_perform_with_buffer canShareT sSys
      bufSysMap)).method_i ∧
    ((gst_gl_upload_set_caps infoFnW sSys capGL capGL).1).method_i = 0 :=
  ⟨(c10_candidate_index_monotone canShareT infoFnW).1 sSys bufSysMap,
    (c10_candidate_index_monotone canShareT infoFnW).2.2.2 sSys capGL capGL
      (by decide) (by decide)⟩

/-- C10 counterexample: after one call exhausts the catalog (returning 0
with `method_i` = 4 and the rejecting Raw Data instance still current), a
later `gst_gl_upload_perform_with_buffer` call on the same session — with
no intervening `gst_gl_upload_set_caps` — re-attempts the current strategy
and succeeds, refuting "every subsequent performUpload call on that session
also fails without ever re-attempting the strategies that were rejected". -/
theorem c10_exhaustion_not_sticky_counterexample :
    puRet (gst_gl_upload_perform_with_buffer canShareT sSys bufSysNoMap) =
      URet.ret 0 ∧
    (puState (gst_gl_upload_perform_with_buffer canShareT sSys
      bufSysNoMap)).method_i = 4 ∧
    (puState (gst_gl_upload_perform_with_buffer canShareT sSys
      bufSysNoMap)).methodImpl.isSome = true ∧
    puRet (gst_gl_upload_perform_with_buffer canShareT
      (puState (gst_gl_upload_perform_with_buffer canShareT sSys bufSysNoMap))
      bufSysMap) = URet.ret 1 := by
  refine ⟨by decide, by decide, by decide, by decide⟩

/-! ### Caps lemmas for the transform-caps claim -/

/-- Field maps with pairwise-distinct keys (every real `GstStructure`). -/
def nodupKeys : List (Nat × Nat) → Bool
  | [] => true
  | kv :: rest => rest.all (fun kv2 => kv2.1 ≠ kv.1) && nodupKeys rest

/-- Every structure of the caps has a well-formed field map. -/
def capsKeysWF (c : Caps) : Bool := c.all fun s => nodupKeys s.fields

theorem lookup_eq_some_of_mem (l : List (Nat × Nat)) (kv : Nat × Nat)
    (hn : nodupKeys l = true) (hm : kv ∈ l) : l.lookup kv.1 = some kv.2 := by
  induction l with
  | nil => simp at hm
  | cons a rest ih =>
    rw [nodupKeys] at hn
    simp only [Bool.and_eq_true, List.all_eq_true, decide_eq_true_eq] at hn
    rcases List.mem_cons.1 hm with h | h
    · subst h
      simp [List.lookup]
    · have hne : kv.1 ≠ a.1 := hn.1 kv h
      rw [List.lookup]
      have : (kv.1 == a.1) = false := by
        simp [hne]
      rw [this]
      exact ih hn.2 h

theorem mem_of_lookup_eq_some (l : List (Nat × Nat)) (k v : Nat)
    (h : l.lookup k = some v) : (k, v) ∈ l := by
  induction l with
  | nil => simp [List.lookup] at h
  | cons a rest ih =>
    rw [List.lookup] at h
    rcases hb : (k == a.1) with _ | _
    · rw [hb] at h
      exact List.mem_cons_of_mem a (ih h)
    · rw [hb] at h
      simp at h hb
      have hkv : (k, v) = a := by
        rcases a with ⟨a1, a2⟩
        simp at hb h ⊢
        exact ⟨hb, h.symm⟩
      rw [hkv]
      exact List.mem_cons_self a rest

theorem lookup_append_first (l1 l2 : List (Nat × Nat)) (k v : Nat)
    (h : l1.lookup k = some v) : (l1 ++ l2).lookup k = some v := by
  induction l1 with
  | nil => simp [List.lookup] at h
  | cons a rest ih =>
    rw [List.lookup] at h
    rw [List.cons_append, List.lookup]
    rcases hb : (k == a.1) with _ | _
    · rw [hb] at h
      exact ih h
    · rw [hb] at h
      exact h

theorem lookup_append_second (l1 l2 : List (Nat × Nat)) (k : Nat)
    (h : l1.lookup k = none) : (l1 ++ l2).lookup k = l2.lookup k := by
  induction l1 with
  | nil => simp
  | cons a rest ih =>
    rw [List.lookup] at h
    rw [List.cons_append, List.lookup]
    rcases hb : (k == a.1) with _ | _
    · rw [hb] at h
      exact ih h
    · rw [hb] at h
      simp at h

theorem contains_true_iff_mem (l : List Feature) (f : Feature) :
    l.contains f = true ↔ f ∈ l := by
  show l.elem f = true ↔ f ∈ l
  exact List.elem_iff

theorem featSub_refl (a : List Feature) : featSub a a = true := by
  rw [featSub]
  simp only [List.all_eq_true]
  intro f hf
  exact (contains_true_iff_mem a f).2 hf

theorem featEq_refl (a : List Feature) : featEq a a = true := by
  rw [featEq, featSub_refl]
  rfl

theorem featSub_trans (a b c : List Feature) (h1 : featSub a b = true)
    (h2 : featSub b c = true) : featSub a c = true := by
  rw [featSub] at h1 h2 ⊢
  simp only [List.all_eq_true] at h1 h2 ⊢
  intro f hf
  have hb := (contains_true_iff_mem b f).1 (h1 f hf)
  exact h2 f hb

theorem featEq_symm (a b : List Feature) (h : featEq a b = true) :
    featEq b a = true := by
  rw [featEq] at h ⊢
  simp only [Bool.and_eq_true] at h ⊢
  exact ⟨h.2, h.1⟩

theorem featEq_trans (a b c : List Feature) (h1 : featEq a b = true)
    (h2 : featEq b c = true) : featEq a c = true := by
  rw [featEq] at h1 h2 ⊢
  simp only [Bool.and_eq_true] at h1 h2 ⊢
  exact ⟨featSub_trans a b c h1.1 h2.1, featSub_trans c b a h2.2 h1.2⟩

theorem lookup_isSome_of_mem (l : List (Nat × Nat)) (kv : Nat × Nat)
    (h : kv ∈ l) : ∃ w, l.lookup kv.1 = some w := by
  induction l with
  | nil => simp at h
  | cons a rest ih =>
    rw [List.lookup]
    rcases hb : (kv.1 == a.1) with _ | _
    · rcases List.mem_cons.1 h with h2 | h2
      · subst h2
        simp at hb
      · exact ih h2
    · exact ⟨a.2, rfl⟩

theorem lookup_none_not_mem (l : List (Nat × Nat)) (k : Nat)
    (h : l.lookup k = none) (v : Nat) : (k, v) ∉ l := by
  intro hm
  rcases lookup_isSome_of_mem l (k, v) hm with ⟨w, hw⟩
  rw [h] at hw
  exact Option.noConfusion hw

theorem nodupKeys_filter (l : List (Nat × Nat)) (p : Nat × Nat → Bool)
    (h : nodupKeys l = true) : nodupKeys (l.filter p) = true := by
  induction l with
  | nil => simp [nodupKeys]
  | cons a rest ih =>
    rw [nodupKeys] at h
    simp only [Bool.and_eq_true, List.all_eq_true, decide_eq_true_eq] at h
    rw [List.filter_cons]
    split
    · rw [nodupKeys]
      simp only [Bool.and_eq_true, List.all_eq_true, decide_eq_true_eq]
      exact ⟨fun kv hkv => h.1 kv (List.mem_of_mem_filter hkv), ih h.2⟩
    · exact ih h.2

theorem fieldsSubsume_refl (l : List (Nat × Nat)) (h : nodupKeys l = true) :
    fieldsSubsume l l = true := by
  rw [fieldsSubsume]
  simp only [List.all_eq_true, beq_iff_eq]
  intro kv hkv
  exact lookup_eq_some_of_mem l kv h hkv

theorem fieldsSubsume_trans (a b c : List (Nat × Nat))
    (h1 : fieldsSubsume a b = true) (h2 : fieldsSubsume b c = true) :
    fieldsSubsume a c = true := by
  rw [fieldsSubsume] at h1 h2 ⊢
  simp only [List.all_eq_true, beq_iff_eq] at h1 h2 ⊢
  intro kv hkv
  have hb := h2 kv hkv
  have hmem := mem_of_lookup_eq_some b kv.1 kv.2 hb
  exact h1 (kv.1, kv.2) hmem

theorem structSubset_refl (s : CapsStruct) (h : nodupKeys s.fields = true) :
    structSubset s s = true := by
  rw [structSubset]
  simp only [Bool.and_eq_true]
  exact ⟨⟨by simp, featEq_refl s.features⟩, fieldsSubsume_refl s.fields h⟩

theorem structSubset_trans (a b c : CapsStruct)
    (h1 : structSubset a b = true) (h2 : structSubset b c = true) :
    structSubset a c = true := by
  rw [structSubset] at h1 h2 ⊢
  simp only [Bool.and_eq_true, beq_iff_eq] at h1 h2 ⊢
  exact ⟨⟨h1.1.1.trans h2.1.1,
    featEq_trans a.features b.features c.features h1.1.2 h2.1.2⟩,
    fieldsSubsume_trans a.fields b.fields c.fields h1.2 h2.2⟩

theorem structIntersect_eq_some (s t r : CapsStruct)
    (h : structIntersect s t = some r) :
    r = ⟨s.media,
        s.fields ++ t.fields.filter (fun kv => (s.fields.lookup kv.1).isNone),
        s.features⟩ ∧
      s.media = t.media ∧ featEq s.features t.features = true ∧
      fieldsCompat s.fields t.fields = true := by
  rw [structIntersect] at h
  split at h
  · rename_i hc
    simp only [Bool.and_eq_true, beq_iff_eq] at hc
    simp only [Option.some.injEq] at h
    exact ⟨h.symm, hc.1.1, hc.1.2, hc.2⟩
  · exact Option.noConfusion h

theorem nodupKeys_append_disjoint (l2 : List (Nat × Nat))
    (h2 : nodupKeys l2 = true) :
    ∀ l1, nodupKeys l1 = true → (∀ kv ∈ l2, l1.lookup kv.1 = none) →
    nodupKeys (l1 ++ l2) = true := by
  intro l1
  induction l1 with
  | nil =>
    intro _ _
    simpa using h2
  | cons a rest ih =>
    intro h1 hd
    rw [nodupKeys] at h1
    simp only [Bool.and_eq_true, List.all_eq_true, decide_eq_true_eq] at h1
    rw [List.cons_append, nodupKeys]
    simp only [Bool.and_eq_true, List.all_eq_true, decide_eq_true_eq]
    constructor
    · intro kv hkv
      rcases List.mem_append.1 hkv with hin | hin
      · exact h1.1 kv hin
      · intro heq
        have hnone := hd kv hin
        rw [List.lookup, heq] at hnone
        simp at hnone
    · refine ih h1.2 ?_
      intro kv hkv
      have hnone := hd kv hkv
      rw [List.lookup] at hnone
      rcases hb : (kv.1 == a.1) with _ | _
      · rw [hb] at hnone
        exact hnone
      · rw [hb] at hnone
        exact Option.noConfusion hnone

theorem structIntersect_nodup (s t r : CapsStruct)
    (hs : nodupKeys s.fields = true) (ht : nodupKeys t.fields = true)
    (h : structIntersect s t = some r) : nodupKeys r.fields = true := by
  obtain ⟨hr, _, _, _⟩ := structIntersect_eq_some s t r h
  rw [hr]
  have hfil : nodupKeys (t.fields.filter
      (fun kv => (s.fields.lookup kv.1).isNone)) = true :=
    nodupKeys_filter t.fields _ ht
  refine nodupKeys_append_disjoint _ hfil s.fields hs ?_
  intro kv hkv
  have := List.of_mem_filter hkv
  simpa [Option.isNone_iff_eq_none] using this

theorem structIntersect_subset_right (s t r : CapsStruct)
    (ht : nodupKeys t.fields = true) (h : structIntersect s t = some r) :
    structSubset r t = true := by
  obtain ⟨hr, hmed, hfeat, hcompat⟩ := structIntersect_eq_some s t r h
  rw [structSubset, hr]
  simp only [Bool.and_eq_true, beq_iff_eq]
  refine ⟨⟨hmed, hfeat⟩, ?_⟩
  rw [fieldsSubsume]
  simp only [List.all_eq_true, beq_iff_eq]
  intro kv hkv
  rcases hl : s.fields.lookup kv.1 with _ | v
  · rw [lookup_append_second _ _ _ hl]
    have hmemf : kv ∈ t.fields.filter (fun kv => (s.fields.lookup kv.1).isNone) := by
      refine List.mem_filter.2 ⟨hkv, ?_⟩
      simp [hl]
    exact lookup_eq_some_of_mem _ kv (nodupKeys_filter t.fields _ ht) hmemf
  · have hv : v = kv.2 := by
      rw [fieldsCompat] at hcompat
      simp only [List.all_eq_true] at hcompat
      have := hcompat kv hkv
      rw [hl] at this
      simpa using this
    rw [lookup_append_first _ _ _ _ hl, hv]

theorem structIntersect_subset_left (s t r : CapsStruct)
    (hs : nodupKeys s.fields = true) (h : structIntersect s t = some r) :
    structSubset r s = true := by
  obtain ⟨hr, _, _, _⟩ := structIntersect_eq_some s t r h
  rw [structSubset, hr]
  simp only [Bool.and_eq_true, beq_iff_eq]
  refine ⟨⟨by simp, featEq_refl s.features⟩, ?_⟩
  rw [fieldsSubsume]
  simp only [List.all_eq_true, beq_iff_eq]
  intro kv hkv
  exact lookup_append_first _ _ _ _ (lookup_eq_some_of_mem s.fields kv hs hkv)

theorem structIntersect_of_common (a s t : CapsStruct)
    (h1 : structSubset a s = true) (h2 : structSubset a t = true) :
    ∃ r, structIntersect s t = some r ∧ structSubset a r = true := by
  rw [structSubset] at h1 h2
  simp only [Bool.and_eq_true, beq_iff_eq] at h1 h2
  have hmed : s.media = t.media := h1.1.1.symm.trans h2.1.1
  have hfeat : featEq s.features t.features = true :=
    featEq_trans s.features a.features t.features
      (featEq_symm a.features s.features h1.1.2) h2.1.2
  have hcompat : fieldsCompat s.fields t.fields = true := by
    rw [fieldsCompat]
    simp only [List.all_eq_true]
    intro kv hkv
    rcases hl : s.fields.lookup kv.1 with _ | v
    · simp
    · have hva : a.fields.lookup kv.1 = some v := by
        rw [fieldsSubsume] at h1
        simp only [List.all_eq_true, beq_iff_eq] at h1
        exact h1.2 (kv.1, v) (mem_of_lookup_eq_some s.fields kv.1 v hl)
      have hkv2 : a.fields.lookup kv.1 = some kv.2 := by
        rw [fieldsSubsume] at h2
        simp only [List.all_eq_true, beq_iff_eq] at h2
        exact h2.2 kv hkv
      rw [hva] at hkv2
      simp only [Option.some.injEq] at hkv2
      simp [hkv2]
  have hcond : (s.media == t.media && featEq s.features t.features &&
      fieldsCompat s.fields t.fields) = true := by
    simp [hmed, hfeat, hcompat]
  refine ⟨_, by rw [structIntersect, if_pos hcond], ?_⟩
  rw [structSubset]
  simp only [Bool.and_eq_true, beq_iff_eq]
  refine ⟨⟨h1.1.1, h1.1.2⟩, ?_⟩
  rw [fieldsSubsume]
  simp only [List.all_eq_true, beq_iff_eq]
  intro kv hkv
  rcases List.mem_append.1 hkv with hin | hin
  · rw [fieldsSubsume] at h1
    simp only [List.all_eq_true, beq_iff_eq] at h1
    exact h1.2 kv hin
  · rw [fieldsSubsume] at h2
    simp only [List.all_eq_true, beq_iff_eq] at h2
    exact h2.2 kv (List.mem_of_mem_filter hin)

theorem capsMergeStructure_mem (acc : Caps) (s x : CapsStruct)
    (h : x ∈ capsMergeStructure acc s) : x ∈ acc ∨ x = s := by
  rw [capsMergeStructure] at h
  split at h
  · exact Or.inl h
  · rcases List.mem_append.1 h with h2 | h2
    · exact Or.inl h2
    · simp at h2
      exact Or.inr h2

theorem capsMergeStructure_persist (acc : Caps) (s x : CapsStruct)
    (h : x ∈ acc) : x ∈ capsMergeStructure acc s := by
  rw [capsMergeStructure]
  split
  · exact h
  · exact List.mem_append_left _ h

theorem capsMergeStructure_covers (acc : Caps) (s : CapsStruct)
    (hn : nodupKeys s.fields = true) :
    ∃ t ∈ capsMergeStructure acc s, structSubset s t = true := by
  rw [capsMergeStructure]
  split
  · rename_i hany
    rcases List.any_eq_true.1 hany with ⟨t, ht, hsub⟩
    exact ⟨t, ht, hsub⟩
  · exact ⟨s, List.mem_append_right _ (by simp), structSubset_refl s hn⟩

theorem mergeInto_mem (l : List CapsStruct) :
    ∀ acc x, x ∈ mergeInto acc l → x ∈ acc ∨ x ∈ l := by
  induction l with
  | nil =>
    intro acc x h
    exact Or.inl h
  | cons a rest ih =>
    intro acc x h
    rw [mergeInto, List.foldl_cons] at h
    rcases ih (capsMergeStructure acc a) x h with h2 | h2
    · rcases capsMergeStructure_mem acc a x h2 with h3 | h3
      · exact Or.inl h3
      · exact Or.inr (by simp [h3])
    · exact Or.inr (List.mem_cons_of_mem a h2)

theorem mergeInto_persist (l : List CapsStruct) :
    ∀ acc x, x ∈ acc → x ∈ mergeInto acc l := by
  induction l with
  | nil =>
    intro acc x h
    exact h
  | cons a rest ih =>
    intro acc x h
    rw [mergeInto, List.foldl_cons]
    exact ih _ x (capsMergeStructure_persist acc a x h)

theorem mergeInto_covers (l : List CapsStruct)
    (hW : ∀ s ∈ l, nodupKeys s.fields = true) :
    ∀ acc s, s ∈ l → ∃ t ∈ mergeInto acc l, structSubset s t = true := by
  induction l with
  | nil =>
    intro acc s h
    simp at h
  | cons a rest ih =>
    intro acc s h
    rw [mergeInto, List.foldl_cons]
    rcases List.mem_cons.1 h with h2 | h2
    · subst h2
      rcases capsMergeStructure_covers acc s (hW s h) with ⟨t, ht, hsub⟩
      exact ⟨t, mergeInto_persist rest _ t ht, hsub⟩
    · exact ih (fun x hx => hW x (List.mem_cons_of_mem a hx)) _ s h2

theorem mergeInto_absorbed (l : List CapsStruct) :
    ∀ acc, (∀ x ∈ l, ∃ y ∈ acc, structSubset x y = true) →
    mergeInto acc l = acc := by
  induction l with
  | nil =>
    intro acc _
    rfl
  | cons a rest ih =>
    intro acc h
    rw [mergeInto, List.foldl_cons]
    have ha : capsMergeStructure acc a = acc := by
      rw [capsMergeStructure]
      rcases h a (by simp) with ⟨y, hy, hsub⟩
      rw [if_pos (List.any_eq_true.2 ⟨y, hy, hsub⟩)]
    rw [ha]
    exact ih acc (fun x hx => h x (List.mem_cons_of_mem a hx))

theorem intersect_fold_mem (b : Caps) (a : Caps) :
    ∀ acc x, x ∈ a.foldl (fun acc s =>
        mergeInto acc (b.filterMap fun t => structIntersect s t)) acc →
      x ∈ acc ∨ ∃ f ∈ a, ∃ t ∈ b, structIntersect f t = some x := by
  induction a with
  | nil =>
    intro acc x h
    exact Or.inl h
  | cons f rest ih =>
    intro acc x h
    rw [List.foldl_cons] at h
    rcases ih _ x h with h2 | h2
    · rcases mergeInto_mem _ _ x h2 with h3 | h3
      · exact Or.inl h3
      · rcases List.mem_filterMap.1 h3 with ⟨t, ht, hit⟩
        exact Or.inr ⟨f, by simp, t, ht, hit⟩
    · rcases h2 with ⟨f2, hf2, t, ht, hit⟩
      exact Or.inr ⟨f2, List.mem_cons_of_mem f hf2, t, ht, hit⟩

theorem gst_caps_intersect_first_mem (a b : Caps) (x : CapsStruct)
    (h : x ∈ gst_caps_intersect_first a b) :
    ∃ f ∈ a, ∃ t ∈ b, structIntersect f t = some x := by
  rw [gst_caps_intersect_first] at h
  rcases intersect_fold_mem b a [] x h with h2 | h2
  · simp at h2
  · exact h2

theorem intersect_fold_persist (b : Caps) (a : Caps) :
    ∀ acc x, x ∈ acc → x ∈ a.foldl (fun acc s =>
        mergeInto acc (b.filterMap fun t => structIntersect s t)) acc := by
  induction a with
  | nil =>
    intro acc x h
    exact h
  | cons f rest ih =>
    intro acc x h
    rw [List.foldl_cons]
    exact ih _ x (mergeInto_persist _ _ x h)

theorem intersect_fold_covers (b : Caps) (hWb : capsKeysWF b = true)
    (a : Caps) (hWa : capsKeysWF a = true) :
    ∀ acc f t r, f ∈ a → t ∈ b → structIntersect f t = some r →
      ∃ u ∈ a.foldl (fun acc s =>
        mergeInto acc (b.filterMap fun t => structIntersect s t)) acc,
        structSubset r u = true := by
  induction a with
  | nil =>
    intro acc f t r hf ht hit
    simp at hf
  | cons f0 rest ih =>
    intro acc f t r hf ht hit
    rw [List.foldl_cons]
    rw [capsKeysWF] at hWa hWb
    simp only [List.all_eq_true] at hWa hWb
    rcases List.mem_cons.1 hf with h2 | h2
    · subst h2
      have hrmem : r ∈ b.filterMap fun t => structIntersect f t :=
        List.mem_filterMap.2 ⟨t, ht, hit⟩
      have hWfm : ∀ x ∈ b.filterMap fun t => structIntersect f t,
          nodupKeys x.fields = true := by
        intro x hx
        rcases List.mem_filterMap.1 hx with ⟨t2, ht2, hit2⟩
        exact structIntersect_nodup f t2 x (hWa f hf) (hWb t2 ht2) hit2
      rcases mergeInto_covers _ hWfm acc r hrmem with ⟨u, hu, hsub⟩
      exact ⟨u, intersect_fold_persist b rest _ u hu, hsub⟩
    · have hWa2 : capsKeysWF rest = true := by
        rw [capsKeysWF]
        simp only [List.all_eq_true]
        intro x hx
        exact hWa x (List.mem_cons_of_mem f0 hx)
      have hWb2 : capsKeysWF b = true := by
        rw [capsKeysWF]
        simp only [List.all_eq_true]
        exact hWb
      exact ih hWa2 _ f t r h2 ht hit

theorem gst_caps_intersect_first_covers (a b : Caps)
    (hWa : capsKeysWF a = true) (hWb : capsKeysWF b = true)
    (f t : CapsStruct) (r : CapsStruct) (hf : f ∈ a) (ht : t ∈ b)
    (hit : structIntersect f t = some r) :
    ∃ u ∈ gst_caps_intersect_first a b, structSubset r u = true := by
  rw [gst_caps_intersect_first]
  exact intersect_fold_covers b hWb a hWa [] f t r hf ht hit

/-- The sink-direction image of one structure: features replaced by
GLMemory. -/
def setGLMStruct (s : CapsStruct) : CapsStruct :=
  ⟨s.media, s.fields, [Feature.glMemory]⟩

theorem transform_sink_eq (L : Caps) (filter : Option Caps) :
    gst_gl_upload_transform_caps PadDirection.sink L filter =
      (match filter with
       | some f => gst_caps_intersect_first f
          (mergeInto (mergeInto (mergeInto (mergeInto [] (L.map setGLMStruct))
            (L.map setGLMStruct)) (L.map setGLMStruct)) (L.map setGLMStruct))
       | none => mergeInto (mergeInto (mergeInto (mergeInto []
          (L.map setGLMStruct)) (L.map setGLMStruct)) (L.map setGLMStruct))
          (L.map setGLMStruct)) := rfl

theorem capsSubset_of_pointwise (a b : Caps)
    (h : ∀ x ∈ a, ∃ y ∈ b, structSubset x y = true) : capsSubset a b = true := by
  rw [capsSubset]
  simp only [List.all_eq_true]
  intro x hx
  rcases h x hx with ⟨y, hy, hs⟩
  exact List.any_eq_true.2 ⟨y, hy, hs⟩

theorem structSubset_setGLM (r : CapsStruct) (h : nodupKeys r.fields = true)
    (hfe : featEq r.features [Feature.glMemory] = true) :
    structSubset (setGLMStruct r) r = true ∧
      structSubset r (setGLMStruct r) = true := by
  constructor
  · rw [structSubset, setGLMStruct]
    simp only [Bool.and_eq_true, beq_iff_eq]
    exact ⟨⟨trivial, featEq_symm r.features [Feature.glMemory] hfe⟩,
      fieldsSubsume_refl r.fields h⟩
  · rw [structSubset, setGLMStruct]
    simp only [Bool.and_eq_true, beq_iff_eq]
    exact ⟨⟨trivial, hfe⟩, fieldsSubsume_refl r.fields h⟩

theorem mergeQuad_fixed (x : CapsStruct) (h : nodupKeys x.fields = true) :
    mergeInto (mergeInto (mergeInto (mergeInto [] [x]) [x]) [x]) [x] = [x] := by
  have h1 : mergeInto [] [x] = [x] := rfl
  have habs : mergeInto [x] [x] = [x] := by
    refine mergeInto_absorbed [x] [x] ?_
    intro y hy
    simp at hy
    exact ⟨x, by simp, hy ▸ structSubset_refl x h⟩
  rw [h1, habs, habs, habs]

/-- The merge of the four (identical, in the sink direction) per-strategy
transform results. -/
def mergeQuadOf (M : Caps) : Caps :=
  mergeInto (mergeInto (mergeInto (mergeInto [] M) M) M) M

theorem transform_sink_some (L F : Caps) :
    gst_gl_upload_transform_caps PadDirection.sink L (some F) =
      gst_caps_intersect_first F (mergeQuadOf (L.map setGLMStruct)) := rfl

theorem transform_sink_none (L : Caps) :
    gst_gl_upload_transform_caps PadDirection.sink L none =
      mergeQuadOf (L.map setGLMStruct) := rfl

theorem mergeQuadOf_fixed (x : CapsStruct) (h : nodupKeys x.fields = true) :
    mergeQuadOf [x] = [x] := mergeQuad_fixed x h

theorem mergeQuadOf_mem (M : Caps) (u : CapsStruct) (h : u ∈ mergeQuadOf M) :
    u ∈ M := by
  rw [mergeQuadOf] at h
  rcases mergeInto_mem M _ u h with h | h
  · rcases mergeInto_mem M _ u h with h | h
    · rcases mergeInto_mem M _ u h with h | h
      · rcases mergeInto_mem M _ u h with h | h
        · simp at h
        · exact h
      · exact h
    · exact h
  · exact h

theorem mergeQuadOf_covers (M : Caps)
    (hW : ∀ x ∈ M, nodupKeys x.fields = true) (x : CapsStruct) (hx : x ∈ M) :
    ∃ u ∈ mergeQuadOf M, structSubset x u = true := by
  rw [mergeQuadOf]
  exact mergeInto_covers M hW _ x hx

/-- C9 (amended): for the sink direction, `gst_gl_upload_transform_caps` is
idempotent on every fixed (resolved) caps value with every filter: applying
it a second time, with the same direction and filter, to its own result
yields caps equal (`gst_caps_is_equal`) to the single application. (For the
src direction the operation is not idempotent — see the counterexample.) -/
theorem c9_transform_caps_sink_idempotent (caps : Caps) (filter : Option Caps)
    (hfix : gst_caps_is_fixed caps = true)
    (hwf : capsKeysWF caps = true)
    (hwfF : (match filter with
             | some f => capsKeysWF f
             | none => true) = true) :
    gst_caps_is_equal
      (gst_gl_upload_transform_caps PadDirection.sink
        (gst_gl_upload_transform_caps PadDirection.sink caps filter) filter)
      (gst_gl_upload_transform_caps PadDirection.sink caps filter) = true := by
  rcases caps with _ | ⟨c0, rest⟩
  · simp [gst_caps_is_fixed] at hfix
  rcases rest with _ | ⟨c1, rest2⟩
  swap
  · simp [gst_caps_is_fixed] at hfix
  rw [capsKeysWF] at hwf
  simp only [List.all_eq_true, List.mem_singleton] at hwf
  have hc0 : nodupKeys c0.fields = true := hwf c0 rfl
  have hX : nodupKeys (setGLMStruct c0).fields = true := hc0
  rcases filter with _ | F
  · -- no filter
    have hT1 : gst_gl_upload_transform_caps PadDirection.sink [c0] none =
        [setGLMStruct c0] := by
      rw [transform_sink_none]
      simp only [List.map]
      exact mergeQuadOf_fixed (setGLMStruct c0) hX
    have hT2 : gst_gl_upload_transform_caps PadDirection.sink
        [setGLMStruct c0] none = [setGLMStruct c0] := by
      rw [transform_sink_none]
      simp only [List.map]
      exact mergeQuadOf_fixed (setGLMStruct c0) hX
    rw [hT1, hT2]
    have hsub : capsSubset [setGLMStruct c0] [setGLMStruct c0] = true := by
      refine capsSubset_of_pointwise _ _ ?_
      intro x hx
      simp only [List.mem_singleton] at hx
      subst hx
      exact ⟨setGLMStruct c0, by simp, structSubset_refl _ hX⟩
    rw [gst_caps_is_equal, hsub]
    rfl
  · -- with filter F
    simp only [] at hwfF
    rw [capsKeysWF] at hwfF
    simp only [List.all_eq_true] at hwfF
    have hT1 : gst_gl_upload_transform_caps PadDirection.sink [c0] (some F) =
        gst_caps_intersect_first F [setGLMStruct c0] := by
      rw [transform_sink_some]
      simp only [List.map]
      rw [mergeQuadOf_fixed (setGLMStruct c0) hX]
    rw [hT1]
    have hR1mem : ∀ r ∈ gst_caps_intersect_first F [setGLMStruct c0],
        ∃ f ∈ F, structIntersect f (setGLMStruct c0) = some r := by
      intro r hr
      rcases gst_caps_intersect_first_mem F [setGLMStruct c0] r hr with
        ⟨f, hf, t, ht, hit⟩
      simp only [List.mem_singleton] at ht
      subst ht
      exact ⟨f, hf, hit⟩
    have hR1nodup : ∀ r ∈ gst_caps_intersect_first F [setGLMStruct c0],
        nodupKeys r.fields = true := by
      intro r hr
      rcases hR1mem r hr with ⟨f, hf, hit⟩
      exact structIntersect_nodup f (setGLMStruct c0) r (hwfF f hf) hX hit
    have hR1feat : ∀ r ∈ gst_caps_intersect_first F [setGLMStruct c0],
        featEq r.features [Feature.glMemory] = true := by
      intro r hr
      rcases hR1mem r hr with ⟨f, hf, hit⟩
      obtain ⟨hreq, _, hfeat, _⟩ :=
        structIntersect_eq_some f (setGLMStruct c0) r hit
      rw [hreq]
      exact hfeat
    have hMnodup : ∀ x ∈ (gst_caps_intersect_first F
        [setGLMStruct c0]).map setGLMStruct, nodupKeys x.fields = true := by
      intro x hx
      rcases List.mem_map.1 hx with ⟨r, hr, hrx⟩
      rw [← hrx]
      exact hR1nodup r hr
    have htmp2mem : ∀ u ∈ mergeQuadOf ((gst_caps_intersect_first F
        [setGLMStruct c0]).map setGLMStruct), u ∈ (gst_caps_intersect_first F
        [setGLMStruct c0]).map setGLMStruct :=
      fun u hu => mergeQuadOf_mem _ u hu
    have hWtmp2 : capsKeysWF (mergeQuadOf ((gst_caps_intersect_first F
        [setGLMStruct c0]).map setGLMStruct)) = true := by
      rw [capsKeysWF]
      simp only [List.all_eq_true]
      intro u hu
      exact hMnodup u (htmp2mem u hu)
    have hWF2 : capsKeysWF F = true := by
      rw [capsKeysWF]
      simp only [List.all_eq_true]
      exact hwfF
    rw [transform_sink_some]
    have hdir1 : capsSubset
        (gst_caps_intersect_first F (mergeQuadOf ((gst_caps_intersect_first F
          [setGLMStruct c0]).map setGLMStruct)))
        (gst_caps_intersect_first F [setGLMStruct c0]) = true := by
      refine capsSubset_of_pointwise _ _ ?_
      intro x hx
      rcases gst_caps_intersect_first_mem _ _ x hx with ⟨f, hf, u, hu, hit⟩
      have humem := htmp2mem u hu
      rcases List.mem_map.1 humem with ⟨r, hr, hru⟩
      have hxu : structSubset x u = true :=
        structIntersect_subset_right f u x (hMnodup u humem) hit
      have hur : structSubset u r = true := by
        rw [← hru]
        exact (structSubset_setGLM r (hR1nodup r hr) (hR1feat r hr)).1
      exact ⟨r, hr, structSubset_trans x u r hxu hur⟩
    have hdir2 : capsSubset (gst_caps_intersect_first F [setGLMStruct c0])
        (gst_caps_intersect_first F (mergeQuadOf ((gst_caps_intersect_first F
          [setGLMStruct c0]).map setGLMStruct))) = true := by
      refine capsSubset_of_pointwise _ _ ?_
      intro r hr
      rcases hR1mem r hr with ⟨f, hf, hit⟩
      have hrf : structSubset r f = true :=
        structIntersect_subset_left f (setGLMStruct c0) r (hwfF f hf) hit
      have hglm := structSubset_setGLM r (hR1nodup r hr) (hR1feat r hr)
      have hmemM : setGLMStruct r ∈ (gst_caps_intersect_first F
          [setGLMStruct c0]).map setGLMStruct :=
        List.mem_map_of_mem setGLMStruct hr
      rcases mergeQuadOf_covers _ hMnodup (setGLMStruct r) hmemM with
        ⟨u, hu, hsru⟩
      have hru : structSubset r u = true :=
        structSubset_trans r (setGLMStruct r) u hglm.2 hsru
      rcases structIntersect_of_common r f u hrf hru with ⟨ρ, hρint, hrρ⟩
      rcases gst_caps_intersect_first_covers F _ hWF2 hWtmp2 f u ρ hf hu hρint
        with ⟨w, hw, hρw⟩
      exact ⟨w, hw, structSubset_trans r ρ w hrρ hρw⟩
    rw [gst_caps_is_equal, hdir1, hdir2]
    rfl

/-- A two-structure GL-memory filter with extra field constraints. -/
def filtW : Caps :=
  [⟨0, [(2, 5)], [Feature.glMemory]⟩, ⟨0, [(0, 10)], [Feature.glMemory]⟩]

theorem c9_sink_idempotent_witness :
    gst_caps_is_equal
      (gst_gl_upload_transform_caps PadDirection.sink
        (gst_gl_upload_transform_caps PadDirection.sink capSys (some filtW))
        (some filtW))
      (gst_gl_upload_transform_caps PadDirection.sink capSys (some filtW)) =
      true :=
  c9_transform_caps_sink_idempotent capSys (some filtW) (by decide) (by decide)
    (by decide)

/-- C9 counterexample: in the src direction `gst_gl_upload_transform_caps`
is not idempotent: on the fixed caps `capSys` (one structure, format I420,
system memory) without a filter, the second application adds structures
(e.g. format RGBA with GLMemory features, produced by applying the GLMemory
transform to the EGL/UploadMeta RGBA structures of the first result), so
the double application is not equal — not even as `gst_caps_is_equal` — to
the single application. -/
theorem c9_src_not_idempotent_counterexample :
    gst_caps_is_fixed capSys = true ∧
    gst_caps_is_equal
      (gst_gl_upload_transform_caps PadDirection.src
        (gst_gl_upload_transform_caps PadDirection.src capSys none) none)
      (gst_gl_upload_transform_caps PadDirection.src capSys none) = false ∧
    gst_gl_upload_transform_caps PadDirection.src
        (gst_gl_upload_transform_caps PadDirection.src capSys none) none ≠
      gst_gl_upload_transform_caps PadDirection.src capSys none := by
  refine ⟨by decide, by decide, by decide⟩
